import Mathlib

set_option maxRecDepth 100000

/-!
Verification of the duplicate-character scanner (`src/find_duplicates.c`,
`src/main.c`).

The C function `find_duplicates(char *str)` scans a null-terminated string,
tracks printable ASCII characters (codes 32..126) in a 64-byte bit table
(`character_tracker`, one "seen" bit and one "duplicate emitted" bit per
character), and writes a report of the duplicated characters, brace-delimited
and comma-space separated, through a 256-byte batched output buffer
(`result`) via `write(1, ...)` calls.

Shallow embedding conventions:
* bytes are `Nat` (the `(unsigned char)` cast keeps all C values in 0..255,
  and the model is exact for such values: all bitwise operations stay
  below 256, so no wrap-around ever occurs);
* the input `char *str` is `Option (List Nat)`: `none` is a NULL pointer and
  `some l` is the sequence of bytes stored at the pointer, where the end of
  the list plays the role of the terminating NUL (the scan loop also stops
  at an explicit 0 byte, exactly like `while (*str != a NUL)`);
* the output sink (file descriptor 1) is a `Sink`: the concatenation of the
  successfully written bytes plus the number of `write` calls attempted so
  far; an oracle `ok : Nat → Bool` says whether the n-th `write` call
  succeeds (`false` models `write(...) == -1`, in which case nothing is
  appended);
* the local array `char result[RESULT_BUFFER_SIZE]` is uninitialized in C,
  so the model takes its initial contents as an explicit parameter `junk`;
  the buffer is a `List Nat` mutated by `List.set` together with the
  explicit index `output_idx`, exactly mirroring the C stores.
-/

def RESULT_BUFFER_SIZE : Nat := 256

/-- The output sink: bytes successfully written so far (in order), and the
number of `write` calls attempted so far. -/
structure Sink where
  flushed : List Nat
  nwrites : Nat

/-- One `write(1, data, len)` call: the oracle `ok` decides whether attempt
number `s.nwrites` succeeds.  On success the data is appended to the sink;
on failure (C `write` returning -1) nothing is appended.  Either way the
attempt is counted. -/
def writeSink (ok : Nat → Bool) (s : Sink) (data : List Nat) : Sink × Bool :=
  if ok s.nwrites then (⟨s.flushed ++ data, s.nwrites + 1⟩, true)
  else (⟨s.flushed, s.nwrites + 1⟩, false)

/-- The local state of `find_duplicates`: the 64-byte `character_tracker`,
the `result` buffer contents, `output_idx`, and `is_first_duplicate`. -/
structure FDState where
  character_tracker : List Nat
  result : List Nat
  output_idx : Nat
  is_first_duplicate : Bool

/-- The store `result[output_idx++] = b;`. -/
def pushByte (st : FDState) (b : Nat) : FDState :=
  { st with result := st.result.set st.output_idx b,
            output_idx := st.output_idx + 1 }

/-- The emission of one duplicate character: a `", "` separator unless this
is the first duplicate, then the character itself, then
`is_first_duplicate = 0`. -/
def appendDup (st : FDState) (c : Nat) : FDState :=
  let st1 := if st.is_first_duplicate then st else pushByte (pushByte st 44) 32
  { pushByte st1 c with is_first_duplicate := false }

/-- One iteration of the scan loop body of `find_duplicates`, for the
current byte `character`.  The masks of the C code are inlined:
`byte_index = character >> 2`, `bit_position = character & 3`,
`seen_mask = 1 << bit_position`, `duplicate_mask = seen_mask << 4`.
`Sum.inl` is normal continuation; `Sum.inr s` is the early `return -1`
taken when the mid-scan buffer flush fails. -/
def fdBody (ok : Nat → Bool) (character : Nat) (st : FDState) (s : Sink) :
    (FDState × Sink) ⊕ Sink :=
  if 32 ≤ character ∧ character ≤ 126 then
    if st.character_tracker.getD (character >>> 2) 0 &&& (1 <<< (character &&& 3)) = 0 then
      .inl ({ st with character_tracker := (st.character_tracker.set (character >>> 2)
          (st.character_tracker.getD (character >>> 2) 0 ||| (1 <<< (character &&& 3)))) }, s)
    else if st.character_tracker.getD (character >>> 2) 0
        &&& ((1 <<< (character &&& 3)) <<< 4) = 0 then
      let st1 : FDState := { st with character_tracker :=
        (st.character_tracker.set (character >>> 2)
          (st.character_tracker.getD (character >>> 2) 0
            ||| ((1 <<< (character &&& 3)) <<< 4))) }
      if st1.output_idx + 3 ≥ RESULT_BUFFER_SIZE then
        match writeSink ok s (st1.result.take st1.output_idx) with
        | (s1, true) => .inl (appendDup { st1 with output_idx := 0 } character, s1)
        | (s1, false) => .inr s1
      else .inl (appendDup st1 character, s)
    else .inl (st, s)
  else .inl (st, s)

/-- The scan loop `while (*str != 0) { ... str++; }` of `find_duplicates`. -/
def fdLoop (ok : Nat → Bool) : List Nat → FDState → Sink → (FDState × Sink) ⊕ Sink
  | [], st, s => .inl (st, s)
  | character :: rest, st, s =>
    if character = 0 then .inl (st, s)
    else
      match fdBody ok character st s with
      | .inl (st', s') => fdLoop ok rest st' s'
      | .inr s1 => .inr s1

/-- The code after the scan loop: flush if fewer than 2 bytes remain, append
the closing brace and newline, and perform the final write. -/
def fdFinish (ok : Nat → Bool) : (FDState × Sink) ⊕ Sink → Sink × Int
  | .inr s => (s, -1)
  | .inl (st, s) =>
    let flushStep : (FDState × Sink) ⊕ Sink :=
      if st.output_idx + 2 ≥ RESULT_BUFFER_SIZE then
        match writeSink ok s (st.result.take st.output_idx) with
        | (s1, true) => .inl ({ st with output_idx := 0 }, s1)
        | (s1, false) => .inr s1
      else .inl (st, s)
    match flushStep with
    | .inr s1 => (s1, -1)
    | .inl (st2, s2) =>
      let st3 := pushByte (pushByte st2 125) 10
      match writeSink ok s2 (st3.result.take st3.output_idx) with
      | (s3, true) => (s3, 0)
      | (s3, false) => (s3, -1)

/-- The 31 bytes passed to `write` on the null/empty path: the text
`Input string is null or empty`, a newline, and (because the C call passes
length 31, the size of the literal including its terminator) a trailing NUL
byte. -/
def emptyMsg : List Nat :=
  [73, 110, 112, 117, 116, 32, 115, 116, 114, 105, 110, 103, 32, 105, 115,
   32, 110, 117, 108, 108, 32, 111, 114, 32, 101, 109, 112, 116, 121, 10, 0]

/-- The C guard `str == NULL or the first byte is the NUL terminator`. -/
def strEmpty : Option (List Nat) → Bool
  | none => true
  | some [] => true
  | some (c :: _) => c = 0

/-- The whole of `find_duplicates`.  `junk` is the (uninitialized) initial
contents of the local `result` array; `ok` is the write-success oracle. -/
def find_duplicates (ok : Nat → Bool) (junk : List Nat)
    (input : Option (List Nat)) : Sink × Int :=
  let s0 : Sink := ⟨[], 0⟩
  if strEmpty input then
    ((writeSink ok s0 emptyMsg).1, -1)
  else
    let st0 : FDState := ⟨List.replicate 64 0, junk, 0, true⟩
    fdFinish ok (fdLoop ok (input.getD []) (pushByte st0 123) s0)

/-- The oracle of a sink that accepts every write. -/
def allOk : Nat → Bool := fun _ => true

/-- A concrete choice of initial garbage for the `result` buffer. -/
def junk0 : List Nat := List.replicate 256 0

/-- Printable ASCII: code points 32 through 126. -/
def printable (c : Nat) : Bool := decide (32 ≤ c ∧ c ≤ 126)

/-- Modelled from the spec's words (section 3, Invariant): scanning left to
right with accumulator `seen` of already-scanned printable characters, a
printable character is emitted exactly when its second occurrence is
encountered, i.e. when exactly one copy is already in `seen`. -/
def specDupsAux : List Nat → List Nat → List Nat
  | [], _ => []
  | c :: rest, seen =>
    if printable c then
      if seen.count c = 1 then c :: specDupsAux rest (c :: seen)
      else specDupsAux rest (c :: seen)
    else specDupsAux rest seen

/-- The duplicated printable characters of `l`, listed in the order of each
character's second occurrence. -/
def specDups (l : List Nat) : List Nat := specDupsAux l []

/-- The byte rendering of a duplicate list: entries separated by `", "`
(bytes 44, 32), with no separator before the first entry when the flag is
`true`. -/
def fmtDups : Bool → List Nat → List Nat
  | _, [] => []
  | isFirst, c :: rest => (if isFirst then [c] else [44, 32, c]) ++ fmtDups false rest

/-- The input built by `main` in `src/main.c`: every printable ASCII code
twice, in ascending order (32, 32, 33, 33, ..., 126, 126). -/
def doubledAlphabet : List Nat := (List.range' 32 95).flatMap (fun c => [c, c])

/-- The "seen" bit of character `c` in the tracker, exactly as the code
tests it: `character_tracker[c >> 2] & (1 << (c & 3))` is nonzero. -/
def seenTest (t : List Nat) (c : Nat) : Prop :=
  t.getD (c >>> 2) 0 &&& (1 <<< (c &&& 3)) ≠ 0

/-- The "duplicate emitted" bit of character `c` in the tracker:
`character_tracker[c >> 2] & ((1 << (c & 3)) << 4)` is nonzero. -/
def dupTest (t : List Nat) (c : Nat) : Prop :=
  t.getD (c >>> 2) 0 &&& ((1 <<< (c &&& 3)) <<< 4) ≠ 0

/-- Coupling invariant: the tracker has its declared 64 bytes, the seen bit
of each printable character says whether it has occurred at least once among
the already-scanned characters `seen`, and the duplicate bit says whether it
has occurred at least twice. -/
def coupled (t : List Nat) (seen : List Nat) : Prop :=
  t.length = 64 ∧
  ∀ c, 32 ≤ c → c ≤ 126 →
    ((seenTest t c ↔ 1 ≤ seen.count c) ∧ (dupTest t c ↔ 2 ≤ seen.count c))

/-- Version of `pushByte` with an explicit in-bounds check on the store
into `result`. -/
def pushByteB (st : FDState) (b : Nat) : Option FDState :=
  if st.output_idx < RESULT_BUFFER_SIZE then some (pushByte st b) else none

/-- Version of `appendDup` with every store bounds-checked. -/
def appendDupB (st : FDState) (c : Nat) : Option FDState := do
  let st1 ← if st.is_first_duplicate then some st else do
    let a ← pushByteB st 44
    pushByteB a 32
  let st2 ← pushByteB st1 c
  some { st2 with is_first_duplicate := false }

/-- The loop body with every array access bounds-checked: the tracker index
`character >> 2` must lie in [8, 31] (within the 64-byte tracker), and every
store into `result` must happen at an index below `RESULT_BUFFER_SIZE`. -/
def fdBodyB (ok : Nat → Bool) (character : Nat) (st : FDState) (s : Sink) :
    Option ((FDState × Sink) ⊕ Sink) :=
  if 32 ≤ character ∧ character ≤ 126 then
    if 8 ≤ character >>> 2 ∧ character >>> 2 ≤ 31 then
      if st.character_tracker.getD (character >>> 2) 0 &&& (1 <<< (character &&& 3)) = 0 then
        some (.inl ({ st with character_tracker := (st.character_tracker.set (character >>> 2)
            (st.character_tracker.getD (character >>> 2) 0 ||| (1 <<< (character &&& 3)))) }, s))
      else if st.character_tracker.getD (character >>> 2) 0
          &&& ((1 <<< (character &&& 3)) <<< 4) = 0 then
        let st1 : FDState := { st with character_tracker :=
          (st.character_tracker.set (character >>> 2)
            (st.character_tracker.getD (character >>> 2) 0
              ||| ((1 <<< (character &&& 3)) <<< 4))) }
        if st1.output_idx + 3 ≥ RESULT_BUFFER_SIZE then
          match writeSink ok s (st1.result.take st1.output_idx) with
          | (s1, true) => do
            let st2 ← appendDupB { st1 with output_idx := 0 } character
            some (.inl (st2, s1))
          | (s1, false) => some (.inr s1)
        else do
          let st2 ← appendDupB st1 character
          some (.inl (st2, s))
      else some (.inl (st, s))
    else none
  else some (.inl (st, s))

/-- The scan loop with bounds-checked body. -/
def fdLoopB (ok : Nat → Bool) : List Nat → FDState → Sink →
    Option ((FDState × Sink) ⊕ Sink)
  | [], st, s => some (.inl (st, s))
  | character :: rest, st, s =>
    if character = 0 then some (.inl (st, s))
    else
      match fdBodyB ok character st s with
      | some (.inl (st', s')) => fdLoopB ok rest st' s'
      | some (.inr s1) => some (.inr s1)
      | none => none

/-- The epilogue with bounds-checked stores of the closing brace and the
newline. -/
def fdFinishB (ok : Nat → Bool) : (FDState × Sink) ⊕ Sink → Option (Sink × Int)
  | .inr s => some (s, -1)
  | .inl (st, s) =>
    let flushStep : Option ((FDState × Sink) ⊕ Sink) :=
      if st.output_idx + 2 ≥ RESULT_BUFFER_SIZE then
        match writeSink ok s (st.result.take st.output_idx) with
        | (s1, true) => some (.inl ({ st with output_idx := 0 }, s1))
        | (s1, false) => some (.inr s1)
      else some (.inl (st, s))
    match flushStep with
    | none => none
    | some (.inr s1) => some (s1, -1)
    | some (.inl (st2, s2)) => do
      let sta ← pushByteB st2 125
      let st3 ← pushByteB sta 10
      match writeSink ok s2 (st3.result.take st3.output_idx) with
      | (s3, true) => some (s3, 0)
      | (s3, false) => some (s3, -1)

/-- Version of `find_duplicates` with every array access bounds-checked. -/
def find_duplicatesB (ok : Nat → Bool) (junk : List Nat)
    (input : Option (List Nat)) : Option (Sink × Int) :=
  let s0 : Sink := ⟨[], 0⟩
  if strEmpty input then
    some ((writeSink ok s0 emptyMsg).1, -1)
  else
    let st0 : FDState := ⟨List.replicate 64 0, junk, 0, true⟩
    match pushByteB st0 123 with
    | none => none
    | some st1 =>
      match fdLoopB ok (input.getD []) st1 s0 with
      | none => none
      | some r => fdFinishB ok r

/-- The claimed invariant: in every tracker byte, the duplicate nibble
(upper 4 bits) is contained in the seen nibble (lower 4 bits):
`(byte >> 4) & (byte & 0x0F) == byte >> 4`. -/
def trackerInv (t : List Nat) : Prop :=
  ∀ b ∈ t, (b >>> 4) &&& (b &&& 15) = b >>> 4

instance trackerInv_decidable (t : List Nat) : Decidable (trackerInv t) := by
  unfold trackerInv
  infer_instance

/-! ### List helper lemmas -/

theorem take_set_of_le {α : Type} :
    ∀ (l : List α) (i j : Nat) (b : α), j ≤ i → (l.set i b).take j = l.take j
  | [], _, _, _, _ => by simp
  | _ :: _, _, 0, _, _ => by simp
  | _ :: _, 0, _ + 1, _, h => by omega
  | x :: xs, i + 1, j + 1, b, h => by
    simp only [List.set, List.take]
    rw [take_set_of_le xs i j b (by omega)]

theorem take_set_push {α : Type} {l : List α} {i : Nat} (b : α) (h : i < l.length) :
    (l.set i b).take (i + 1) = l.take i ++ [b] := by
  rw [List.take_succ, take_set_of_le l i i b le_rfl]
  simp [List.getElem?_set_self h]

/-! ### Bit-level helper lemmas -/

theorem and_one_shift_eq_zero_iff (x p : Nat) :
    x &&& (1 <<< p) = 0 ↔ x.testBit p = false := by
  rw [Nat.one_shiftLeft, Nat.and_two_pow]
  have hp : 0 < (2 : Nat) ^ p := Nat.pos_pow_of_pos p (by norm_num)
  rcases h : x.testBit p <;> simp [h, Nat.pos_iff_ne_zero.mp hp]

theorem testBit_or_one_shift (x p q : Nat) :
    (x ||| (1 <<< p)).testBit q = (x.testBit q || decide (p = q)) := by
  rw [Nat.testBit_or, Nat.one_shiftLeft, Nat.testBit_two_pow]

theorem one_shift_shift (p : Nat) : (1 <<< p) <<< 4 = 1 <<< (p + 4) :=
  (Nat.shiftLeft_add 1 p 4).symm

theorem byte_decomp (c : Nat) : c = 4 * (c >>> 2) + (c &&& 3) := by
  rw [Nat.shiftRight_eq_div_pow, show (3 : Nat) = 2 ^ 2 - 1 from rfl,
    Nat.and_pow_two_sub_one_eq_mod]
  omega

theorem and3_lt (c : Nat) : c &&& 3 < 4 := by
  have h := byte_decomp c
  rw [show (3 : Nat) = 2 ^ 2 - 1 from rfl, Nat.and_pow_two_sub_one_eq_mod]
  omega

theorem shift2_bounds {c : Nat} (h1 : 32 ≤ c) (h2 : c ≤ 126) :
    8 ≤ c >>> 2 ∧ c >>> 2 ≤ 31 := by
  rw [Nat.shiftRight_eq_div_pow]
  omega

theorem bitpos_inj {c d : Nat} (hne : c ≠ d) (hb : c >>> 2 = d >>> 2) :
    c &&& 3 ≠ d &&& 3 := by
  intro h
  apply hne
  have hc := byte_decomp c
  have hd := byte_decomp d
  omega

/-! ### Properties of the spec-side duplicate list -/

theorem count_mem_specDupsAux :
    ∀ (l seen : List Nat) (c : Nat), c ∈ specDupsAux l seen → seen.count c ≤ 1
  | [], _, _, h => by simp [specDupsAux] at h
  | d :: rest, seen, c, h => by
    simp only [specDupsAux] at h
    by_cases hp : printable d
    · simp only [hp, if_true] at h
      by_cases h1 : seen.count d = 1
      · simp only [h1, if_true, List.mem_cons] at h
        rcases h with rfl | h
        · omega
        · have := count_mem_specDupsAux rest (d :: seen) c h
          simp only [List.count_cons] at this
          omega
      · simp only [h1, if_false] at h
        have := count_mem_specDupsAux rest (d :: seen) c h
        simp only [List.count_cons] at this
        omega
    · simp only [hp, if_false] at h
      exact count_mem_specDupsAux rest seen c h

theorem nodup_specDupsAux : ∀ (l seen : List Nat), (specDupsAux l seen).Nodup
  | [], _ => by simp [specDupsAux]
  | d :: rest, seen => by
    simp only [specDupsAux]
    by_cases hp : printable d
    · simp only [hp, if_true]
      by_cases h1 : seen.count d = 1
      · simp only [h1, if_true, List.nodup_cons]
        refine ⟨fun hmem => ?_, nodup_specDupsAux rest (d :: seen)⟩
        have := count_mem_specDupsAux rest (d :: seen) d hmem
        simp [List.count_cons, h1] at this
      · simp only [h1, if_false]
        exact nodup_specDupsAux rest (d :: seen)
    · simp only [hp, if_false]
      exact nodup_specDupsAux rest seen

theorem mem_specDupsAux_iff :
    ∀ (l seen : List Nat) (c : Nat),
      c ∈ specDupsAux l seen ↔
        (printable c = true ∧ seen.count c ≤ 1 ∧ 2 ≤ seen.count c + l.count c)
  | [], seen, c => by
    simp only [specDupsAux, List.not_mem_nil, List.count_nil, false_iff]
    rintro ⟨-, h1, h2⟩
    omega
  | d :: rest, seen, c => by
    simp only [specDupsAux]
    by_cases hp : printable d
    · rw [if_pos hp]
      by_cases hcd : c = d
      · subst hcd
        have h3 : (c :: rest).count c = rest.count c + 1 := by simp [List.count_cons]
        by_cases h1 : seen.count c = 1
        · rw [if_pos h1]
          simp only [List.mem_cons, true_or, true_iff]
          exact ⟨hp, by omega, by omega⟩
        · rw [if_neg h1, mem_specDupsAux_iff rest (c :: seen) c]
          have h2 : (c :: seen).count c = seen.count c + 1 := by simp [List.count_cons]
          rw [h2, h3]
          constructor
          · rintro ⟨hpc, hle, hge⟩
            exact ⟨hpc, by omega, by omega⟩
          · rintro ⟨hpc, hle, hge⟩
            exact ⟨hpc, by omega, by omega⟩
      · have hcount : ∀ xs : List Nat, (d :: xs).count c = xs.count c := fun xs => by
          simp [List.count_cons, hcd]
        by_cases h1 : seen.count d = 1
        · rw [if_pos h1]
          simp only [List.mem_cons]
          rw [mem_specDupsAux_iff rest (d :: seen) c, hcount seen, hcount rest]
          simp [hcd]
        · rw [if_neg h1, mem_specDupsAux_iff rest (d :: seen) c, hcount seen, hcount rest]
    · rw [if_neg hp, mem_specDupsAux_iff rest seen c]
      by_cases hcd : c = d
      · subst hcd
        constructor
        · rintro ⟨hpc, -, -⟩
          exact absurd hpc hp
        · rintro ⟨hpc, -, -⟩
          exact absurd hpc hp
      · have hcount : (d :: rest).count c = rest.count c := by
          simp [List.count_cons, hcd]
        rw [hcount]

theorem mem_specDups_iff (l : List Nat) (c : Nat) :
    c ∈ specDups l ↔ (printable c = true ∧ 2 ≤ l.count c) := by
  rw [specDups, mem_specDupsAux_iff]
  simp

theorem nodup_specDups (l : List Nat) : (specDups l).Nodup :=
  nodup_specDupsAux l []

theorem specDups_eq_nil (l : List Nat)
    (h : ∀ c ∈ l, printable c = true → l.count c ≤ 1) : specDups l = [] := by
  rw [List.eq_nil_iff_forall_not_mem]
  intro c hc
  rw [mem_specDups_iff] at hc
  have hmem : c ∈ l := List.count_pos_iff.mp (by omega)
  have := h c hmem hc.1
  omega

/-! ### Coupling the bit tracker to occurrence counts -/

theorem getD_set_eq {t : List Nat} {i : Nat} (v : Nat) (h : i < t.length) :
    (t.set i v).getD i 0 = v := by
  simp [List.getD_eq_getElem?_getD, List.getElem?_set_self h]

theorem getD_set_ne {t : List Nat} {i j : Nat} (v : Nat) (h : i ≠ j) :
    (t.set i v).getD j 0 = t.getD j 0 := by
  simp [List.getD_eq_getElem?_getD, List.getElem?_set_ne h]

theorem seenTest_iff_testBit (t : List Nat) (c : Nat) :
    seenTest t c ↔ (t.getD (c >>> 2) 0).testBit (c &&& 3) = true := by
  rw [seenTest, Ne, and_one_shift_eq_zero_iff, Bool.not_eq_false]

theorem dupTest_iff_testBit (t : List Nat) (c : Nat) :
    dupTest t c ↔ (t.getD (c >>> 2) 0).testBit ((c &&& 3) + 4) = true := by
  rw [dupTest, one_shift_shift, Ne, and_one_shift_eq_zero_iff, Bool.not_eq_false]

/-- Setting a bit in the byte of `c` does not change the tests of a
character `d` living in a different tracker byte. -/
theorem tests_set_other_byte {t : List Nat} {c d : Nat} (r : Nat)
    (hbi : d >>> 2 ≠ c >>> 2) :
    (seenTest (t.set (c >>> 2) (t.getD (c >>> 2) 0 ||| (1 <<< r))) d ↔ seenTest t d) ∧
    (dupTest (t.set (c >>> 2) (t.getD (c >>> 2) 0 ||| (1 <<< r))) d ↔ dupTest t d) := by
  have hb : (t.set (c >>> 2) (t.getD (c >>> 2) 0 ||| (1 <<< r))).getD (d >>> 2) 0
      = t.getD (d >>> 2) 0 := getD_set_ne _ (fun h => hbi h.symm)
  rw [seenTest, seenTest, dupTest, dupTest, hb]
  exact ⟨Iff.rfl, Iff.rfl⟩

/-- Setting bit `r` in the byte of `c` does not change the tests of a
character `d` in the same byte, provided `r` is neither the seen-bit nor the
duplicate-bit position of `d`. -/
theorem tests_set_same_byte {t : List Nat} {c d : Nat} (r : Nat)
    (hidx : c >>> 2 < t.length) (hbi : d >>> 2 = c >>> 2)
    (h1 : r ≠ d &&& 3) (h2 : r ≠ (d &&& 3) + 4) :
    (seenTest (t.set (c >>> 2) (t.getD (c >>> 2) 0 ||| (1 <<< r))) d ↔ seenTest t d) ∧
    (dupTest (t.set (c >>> 2) (t.getD (c >>> 2) 0 ||| (1 <<< r))) d ↔ dupTest t d) := by
  have hb : (t.set (c >>> 2) (t.getD (c >>> 2) 0 ||| (1 <<< r))).getD (d >>> 2) 0
      = t.getD (c >>> 2) 0 ||| (1 <<< r) := by
    rw [hbi]
    exact getD_set_eq _ hidx
  constructor
  · rw [seenTest_iff_testBit, seenTest_iff_testBit, hb, testBit_or_one_shift,
      decide_eq_false h1, Bool.or_false, hbi]
  · rw [dupTest_iff_testBit, dupTest_iff_testBit, hb, testBit_or_one_shift,
      decide_eq_false h2, Bool.or_false, hbi]

/-- Setting the seen bit of `c` makes `seenTest` true for `c` and leaves
`dupTest` of `c` unchanged. -/
theorem tests_set_self_low {t : List Nat} {c : Nat} (hidx : c >>> 2 < t.length) :
    seenTest (t.set (c >>> 2) (t.getD (c >>> 2) 0 ||| (1 <<< (c &&& 3)))) c ∧
    (dupTest (t.set (c >>> 2) (t.getD (c >>> 2) 0 ||| (1 <<< (c &&& 3)))) c ↔ dupTest t c) := by
  have hb := getD_set_eq (t := t) (t.getD (c >>> 2) 0 ||| (1 <<< (c &&& 3))) hidx
  constructor
  · rw [seenTest_iff_testBit, hb, testBit_or_one_shift]
    simp
  · rw [dupTest_iff_testBit, dupTest_iff_testBit, hb, testBit_or_one_shift,
      decide_eq_false (by omega : ¬ c &&& 3 = (c &&& 3) + 4), Bool.or_false]

/-- Setting the duplicate bit of `c` makes `dupTest` true for `c` and leaves
`seenTest` of `c` unchanged. -/
theorem tests_set_self_high {t : List Nat} {c : Nat} (hidx : c >>> 2 < t.length) :
    dupTest (t.set (c >>> 2) (t.getD (c >>> 2) 0 ||| (1 <<< ((c &&& 3) + 4)))) c ∧
    (seenTest (t.set (c >>> 2) (t.getD (c >>> 2) 0 ||| (1 <<< ((c &&& 3) + 4)))) c ↔ seenTest t c) := by
  have hb := getD_set_eq (t := t) (t.getD (c >>> 2) 0 ||| (1 <<< ((c &&& 3) + 4))) hidx
  constructor
  · rw [dupTest_iff_testBit, hb, testBit_or_one_shift]
    simp
  · rw [seenTest_iff_testBit, seenTest_iff_testBit, hb, testBit_or_one_shift,
      decide_eq_false (by omega : ¬ (c &&& 3) + 4 = c &&& 3), Bool.or_false]

/-- Marking first occurrence: setting the seen bit of `c` preserves the
coupling when `c` has not occurred before. -/
theorem coupled_mark_seen {t seen : List Nat} {c : Nat} (hc1 : 32 ≤ c) (hc2 : c ≤ 126)
    (hcpl : coupled t seen) (h0 : seen.count c = 0) :
    coupled (t.set (c >>> 2) (t.getD (c >>> 2) 0 ||| (1 <<< (c &&& 3)))) (c :: seen) := by
  obtain ⟨hlen, hbits⟩ := hcpl
  have hidx : c >>> 2 < t.length := by
    have h := (shift2_bounds hc1 hc2).2
    omega
  refine ⟨by simp [hlen], ?_⟩
  intro d hd1 hd2
  obtain ⟨hsd, hdd⟩ := hbits d hd1 hd2
  by_cases hdc : d = c
  · subst hdc
    have hcc : (d :: seen).count d = seen.count d + 1 := by simp [List.count_cons]
    obtain ⟨hs, hd⟩ := tests_set_self_low (t := t) (c := d) hidx
    constructor
    · rw [hcc]
      exact ⟨fun _ => by omega, fun _ => hs⟩
    · rw [hd, hdd, hcc, h0]
      omega
  · have hcnt : (c :: seen).count d = seen.count d := by simp [List.count_cons, hdc]
    by_cases hbi : d >>> 2 = c >>> 2
    · have hpne : c &&& 3 ≠ d &&& 3 := bitpos_inj (fun h => hdc h.symm) hbi.symm
      obtain ⟨hs, hd⟩ := tests_set_same_byte (t := t) (c := c) (d := d) (c &&& 3)
        hidx hbi hpne (by have := and3_lt c; omega)
      rw [hcnt, hs, hd]
      exact ⟨hsd, hdd⟩
    · obtain ⟨hs, hd⟩ := tests_set_other_byte (t := t) (c := c) (d := d) (c &&& 3) hbi
      rw [hcnt, hs, hd]
      exact ⟨hsd, hdd⟩

/-- Marking a new duplicate: setting the duplicate bit of `c` preserves the
coupling when `c` has occurred exactly once before. -/
theorem coupled_mark_dup {t seen : List Nat} {c : Nat} (hc1 : 32 ≤ c) (hc2 : c ≤ 126)
    (hcpl : coupled t seen) (h1 : seen.count c = 1) :
    coupled (t.set (c >>> 2) (t.getD (c >>> 2) 0 ||| ((1 <<< (c &&& 3)) <<< 4))) (c :: seen) := by
  rw [one_shift_shift]
  obtain ⟨hlen, hbits⟩ := hcpl
  have hidx : c >>> 2 < t.length := by
    have h := (shift2_bounds hc1 hc2).2
    omega
  refine ⟨by simp [hlen], ?_⟩
  intro d hd1 hd2
  obtain ⟨hsd, hdd⟩ := hbits d hd1 hd2
  by_cases hdc : d = c
  · subst hdc
    have hcc : (d :: seen).count d = seen.count d + 1 := by simp [List.count_cons]
    obtain ⟨hdup, hseen⟩ := tests_set_self_high (t := t) (c := d) hidx
    constructor
    · rw [hcc, hseen, hsd]
      omega
    · rw [hcc, h1]
      exact ⟨fun _ => by omega, fun _ => hdup⟩
  · have hcnt : (c :: seen).count d = seen.count d := by simp [List.count_cons, hdc]
    by_cases hbi : d >>> 2 = c >>> 2
    · have hpne : c &&& 3 ≠ d &&& 3 := bitpos_inj (fun h => hdc h.symm) hbi.symm
      obtain ⟨hs, hd⟩ := tests_set_same_byte (t := t) (c := c) (d := d) ((c &&& 3) + 4)
        hidx hbi (by have := and3_lt d; omega) (by omega)
      rw [hcnt, hs, hd]
      exact ⟨hsd, hdd⟩
    · obtain ⟨hs, hd⟩ := tests_set_other_byte (t := t) (c := c) (d := d) ((c &&& 3) + 4) hbi
      rw [hcnt, hs, hd]
      exact ⟨hsd, hdd⟩

/-- A third or later occurrence: the tracker is unchanged and the coupling
still holds after recording the occurrence. -/
theorem coupled_already_dup {t seen : List Nat} {c : Nat}
    (hcpl : coupled t seen) (h2 : 2 ≤ seen.count c) : coupled t (c :: seen) := by
  obtain ⟨hlen, hbits⟩ := hcpl
  refine ⟨hlen, ?_⟩
  intro d hd1 hd2
  obtain ⟨hsd, hdd⟩ := hbits d hd1 hd2
  by_cases hdc : d = c
  · subst hdc
    have hcc : (d :: seen).count d = seen.count d + 1 := by simp [List.count_cons]
    rw [hcc, hsd, hdd]
    omega
  · have hcnt : (c :: seen).count d = seen.count d := by simp [List.count_cons, hdc]
    rw [hcnt]
    exact ⟨hsd, hdd⟩

/-- The all-zero tracker is coupled to the empty scan history. -/
theorem coupled_init : coupled (List.replicate 64 0) [] := by
  refine ⟨by simp, ?_⟩
  intro c h1 h2
  have hz : (List.replicate 64 (0 : Nat)).getD (c >>> 2) 0 = 0 := by
    rcases Nat.lt_or_ge (c >>> 2) 64 with h | h
    · rw [List.getD_eq_getElem?_getD, List.getElem?_replicate, if_pos h]
      rfl
    · rw [List.getD_eq_getElem?_getD, List.getElem?_eq_none (by simpa using h)]
      rfl
  constructor
  · rw [seenTest, hz]
    simp
  · rw [dupTest, hz]
    simp

/-! ### Buffer-append lemmas -/

theorem writeSink_allOk (s : Sink) (data : List Nat) :
    writeSink allOk s data = (⟨s.flushed ++ data, s.nwrites + 1⟩, true) := by
  simp [writeSink, allOk]

theorem pushByte_take (st : FDState) (b : Nat) (h : st.output_idx < st.result.length) :
    (pushByte st b).result.take (pushByte st b).output_idx
      = st.result.take st.output_idx ++ [b] := by
  simp only [pushByte]
  exact take_set_push b h

theorem appendDup_tracker (st : FDState) (c : Nat) :
    (appendDup st c).character_tracker = st.character_tracker := by
  cases hf : st.is_first_duplicate <;> simp [appendDup, pushByte, hf]

theorem appendDup_first (st : FDState) (c : Nat) :
    (appendDup st c).is_first_duplicate = false := by
  cases hf : st.is_first_duplicate <;> simp [appendDup, pushByte, hf]

theorem appendDup_length (st : FDState) (c : Nat) :
    (appendDup st c).result.length = st.result.length := by
  cases hf : st.is_first_duplicate <;> simp [appendDup, pushByte, hf]

theorem appendDup_idx (st : FDState) (c : Nat) :
    (appendDup st c).output_idx
      = st.output_idx + (if st.is_first_duplicate then 1 else 3) := by
  cases hf : st.is_first_duplicate <;> simp [appendDup, pushByte, hf]

theorem appendDup_take {st : FDState} (c : Nat)
    (h : st.output_idx + 3 ≤ st.result.length) :
    (appendDup st c).result.take (appendDup st c).output_idx
      = st.result.take st.output_idx
        ++ (if st.is_first_duplicate then [c] else [44, 32, c]) := by
  cases hf : st.is_first_duplicate
  · simp only [appendDup, hf, Bool.false_eq_true, if_false]
    have h44 := pushByte_take st 44 (by omega)
    have hlen44 : (pushByte st 44).result.length = st.result.length := by simp [pushByte]
    have hidx44 : (pushByte st 44).output_idx = st.output_idx + 1 := by simp [pushByte]
    have h32 := pushByte_take (pushByte st 44) 32 (by omega)
    have hlen32 : (pushByte (pushByte st 44) 32).result.length = st.result.length := by
      simp [pushByte]
    have hidx32 : (pushByte (pushByte st 44) 32).output_idx = st.output_idx + 2 := by
      simp [pushByte]
    have hc := pushByte_take (pushByte (pushByte st 44) 32) c (by omega)
    rw [show (pushByte (pushByte (pushByte st 44) 32) c).result
        = ({ pushByte (pushByte (pushByte st 44) 32) c with
              is_first_duplicate := false } : FDState).result from rfl] at hc
    rw [hc, h32, h44]
    simp
  · simp only [appendDup, hf, if_true]
    have hc := pushByte_take st c (by omega)
    rw [show (pushByte st c).result
        = ({ pushByte st c with is_first_duplicate := false } : FDState).result
      from rfl] at hc
    rw [hc]

/-! ### One-iteration characterization (all writes succeed) -/

theorem fdBody_not_printable {ok : Nat → Bool} {c : Nat} (st : FDState) (s : Sink)
    (h : ¬(32 ≤ c ∧ c ≤ 126)) : fdBody ok c st s = .inl (st, s) := by
  rw [fdBody, if_neg h]

/-- Processing one printable character with an always-succeeding sink:
the loop body continues, the tracker stays coupled to the extended scan
history, the buffer stays well-formed, and "flushed plus pending buffer"
grows by exactly the bytes that `specDupsAux` predicts (the character with
its separator if this is its second occurrence, nothing otherwise). -/
theorem fdBody_allOk_spec {c : Nat} {seen : List Nat} {st : FDState} {s : Sink}
    (hp : 32 ≤ c ∧ c ≤ 126) (hcpl : coupled st.character_tracker seen)
    (hlen : st.result.length = 256) (hidx : st.output_idx ≤ 255) :
    ∃ st' s', fdBody allOk c st s = .inl (st', s') ∧
      coupled st'.character_tracker (c :: seen) ∧
      st'.result.length = 256 ∧ st'.output_idx ≤ 255 ∧
      s'.flushed ++ st'.result.take st'.output_idx
        = s.flushed ++ st.result.take st.output_idx
          ++ (if seen.count c = 1
              then (if st.is_first_duplicate then [c] else [44, 32, c]) else []) ∧
      st'.is_first_duplicate
        = (if seen.count c = 1 then false else st.is_first_duplicate) := by
  obtain ⟨hL, hbits⟩ := hcpl
  obtain ⟨hs_iff, hd_iff⟩ := hbits c hp.1 hp.2
  rw [fdBody, if_pos hp]
  by_cases h0 : st.character_tracker.getD (c >>> 2) 0 &&& (1 <<< (c &&& 3)) = 0
  · rw [if_pos h0]
    have hcnt0 : seen.count c = 0 := by
      have hns : ¬ seenTest st.character_tracker c := fun hn => hn h0
      rw [hs_iff] at hns
      omega
    refine ⟨_, _, rfl, coupled_mark_seen hp.1 hp.2 ⟨hL, hbits⟩ hcnt0, hlen, hidx, ?_, ?_⟩
    · rw [if_neg (by omega : ¬ seen.count c = 1)]
      simp
    · rw [if_neg (by omega : ¬ seen.count c = 1)]
  · rw [if_neg h0]
    have hcnt1 : 1 ≤ seen.count c := hs_iff.mp h0
    by_cases hd0 : st.character_tracker.getD (c >>> 2) 0 &&& ((1 <<< (c &&& 3)) <<< 4) = 0
    · rw [if_pos hd0]
      have hcnt : seen.count c = 1 := by
        have hnd : ¬ dupTest st.character_tracker c := fun hn => hn hd0
        rw [hd_iff] at hnd
        omega
      have hcplD := coupled_mark_dup hp.1 hp.2 ⟨hL, hbits⟩ hcnt
      dsimp only
      by_cases hflush : st.output_idx + 3 ≥ RESULT_BUFFER_SIZE
      · rw [if_pos hflush, writeSink_allOk]
        dsimp only
        refine ⟨_, _, rfl, ?_, ?_, ?_, ?_, ?_⟩
        · rw [appendDup_tracker]
          exact hcplD
        · rw [appendDup_length]
          exact hlen
        · rw [appendDup_idx]
          dsimp only
          split <;> omega
        · rw [appendDup_take _ (by dsimp only; omega)]
          rw [if_pos hcnt]
          dsimp only
          simp
        · rw [appendDup_first, if_pos hcnt]
      · rw [if_neg hflush]
        rw [RESULT_BUFFER_SIZE] at hflush
        refine ⟨_, _, rfl, ?_, ?_, ?_, ?_, ?_⟩
        · rw [appendDup_tracker]
          exact hcplD
        · rw [appendDup_length]
          exact hlen
        · rw [appendDup_idx]
          dsimp only
          split <;> omega
        · rw [appendDup_take _ (by dsimp only; omega)]
          rw [if_pos hcnt]
          dsimp only
          simp
        · rw [appendDup_first, if_pos hcnt]
    · rw [if_neg hd0]
      have hcnt2 : 2 ≤ seen.count c := hd_iff.mp hd0
      refine ⟨_, _, rfl, coupled_already_dup ⟨hL, hbits⟩ hcnt2, hlen, hidx, ?_, ?_⟩
      · rw [if_neg (by omega : ¬ seen.count c = 1)]
        simp
      · rw [if_neg (by omega : ¬ seen.count c = 1)]

theorem fmtDups_cons (b : Bool) (c : Nat) (D : List Nat) :
    fmtDups b (c :: D) = (if b then [c] else [44, 32, c]) ++ fmtDups false D := by
  cases b <;> rfl

/-- Whole-loop characterization when every write succeeds: the loop
terminates normally, and "flushed plus pending buffer" grows by exactly the
formatted rendering of the duplicates found in the remaining input. -/
theorem fdLoop_allOk_spec :
    ∀ (rest seen : List Nat) (st : FDState) (s : Sink),
      coupled st.character_tracker seen →
      st.result.length = 256 → st.output_idx ≤ 255 →
      (∀ b ∈ rest, b ≠ 0) →
      ∃ st' s', fdLoop allOk rest st s = .inl (st', s') ∧
        s'.flushed ++ st'.result.take st'.output_idx
          = s.flushed ++ st.result.take st.output_idx
            ++ fmtDups st.is_first_duplicate (specDupsAux rest seen) ∧
        st'.result.length = 256 ∧ st'.output_idx ≤ 255
  | [], seen, st, s, _, hlen, hidx, _ =>
    ⟨st, s, rfl, by simp [specDupsAux, fmtDups], hlen, hidx⟩
  | c :: rest, seen, st, s, hcpl, hlen, hidx, hnz => by
    have hc0 : c ≠ 0 := hnz c (List.mem_cons_self c rest)
    simp only [fdLoop]
    rw [if_neg hc0]
    by_cases hp : 32 ≤ c ∧ c ≤ 126
    · obtain ⟨st1, s1, hbody, hcpl1, hlen1, hidx1, hflush, hfirst⟩ :=
        fdBody_allOk_spec (s := s) hp hcpl hlen hidx
      rw [hbody]
      obtain ⟨st', s', hrec, heq, hlen', hidx'⟩ :=
        fdLoop_allOk_spec rest (c :: seen) st1 s1 hcpl1 hlen1 hidx1
          (fun b hb => hnz b (List.mem_cons_of_mem c hb))
      refine ⟨st', s', hrec, ?_, hlen', hidx'⟩
      rw [heq, hflush, hfirst]
      have hpc : printable c = true := decide_eq_true hp
      simp only [specDupsAux, hpc, if_true]
      by_cases h1 : seen.count c = 1
      · rw [if_pos h1, if_pos h1, if_pos h1, fmtDups_cons]
        simp [List.append_assoc]
      · rw [if_neg h1, if_neg h1, if_neg h1]
        simp
    · rw [fdBody_not_printable st s hp]
      obtain ⟨st', s', hrec, heq, hlen', hidx'⟩ :=
        fdLoop_allOk_spec rest seen st s hcpl hlen hidx
          (fun b hb => hnz b (List.mem_cons_of_mem c hb))
      refine ⟨st', s', hrec, ?_, hlen', hidx'⟩
      rw [heq]
      have hpc : printable c = false := decide_eq_false hp
      simp only [specDupsAux, hpc, Bool.false_eq_true, if_false]

/-- Appending the closing brace and the newline. -/
theorem push_close_take {st : FDState} (h : st.output_idx + 2 ≤ st.result.length) :
    (pushByte (pushByte st 125) 10).result.take (pushByte (pushByte st 125) 10).output_idx
      = st.result.take st.output_idx ++ [125, 10] := by
  have h125 := pushByte_take st 125 (by omega)
  have h10 := pushByte_take (pushByte st 125) 10 (by simp [pushByte]; omega)
  rw [h10, h125]
  simp

/-- The post-loop epilogue with an always-succeeding sink: closing brace and
newline are appended and everything pending is flushed; the call returns 0. -/
theorem fdFinish_allOk_spec {st : FDState} {s : Sink}
    (hlen : st.result.length = 256) (hidx : st.output_idx ≤ 255) :
    (fdFinish allOk (.inl (st, s))).1.flushed
        = s.flushed ++ st.result.take st.output_idx ++ [125, 10] ∧
    (fdFinish allOk (.inl (st, s))).2 = 0 := by
  rw [fdFinish]
  by_cases hf : st.output_idx + 2 ≥ RESULT_BUFFER_SIZE
  · dsimp only
    rw [if_pos hf, writeSink_allOk]
    dsimp only
    rw [push_close_take (by dsimp only; omega), writeSink_allOk]
    dsimp only
    constructor
    · simp
    · rfl
  · dsimp only
    rw [if_neg hf, RESULT_BUFFER_SIZE] at *
    dsimp only
    rw [push_close_take (by omega), writeSink_allOk]
    constructor
    · simp
    · rfl

theorem strEmpty_false {l : List Nat} (hne : l ≠ []) (h0 : 0 ∉ l) :
    strEmpty (some l) = false := by
  cases l with
  | nil => exact absurd rfl hne
  | cons c t =>
    simp only [strEmpty, decide_eq_false_iff_not]
    intro h
    exact h0 (h ▸ List.mem_cons_self c t)

/-- Full characterization of a successful run on a non-empty NUL-free
input: the bytes written to the sink are the opening brace, the formatted
spec-level duplicate list, the closing brace and a newline, and the return
value is 0. -/
theorem find_duplicates_allOk (l junk : List Nat) (hjunk : junk.length = 256)
    (hne : l ≠ []) (h0 : 0 ∉ l) :
    (find_duplicates allOk junk (some l)).1.flushed
        = [123] ++ fmtDups true (specDups l) ++ [125, 10] ∧
    (find_duplicates allOk junk (some l)).2 = 0 := by
  rw [find_duplicates]
  dsimp only
  rw [strEmpty_false hne h0, if_neg (by simp)]
  have htake : (pushByte ⟨List.replicate 64 0, junk, 0, true⟩ 123).result.take
      (pushByte ⟨List.replicate 64 0, junk, 0, true⟩ 123).output_idx = [123] := by
    rw [pushByte_take _ 123 (by simp [hjunk])]
    simp
  obtain ⟨st', s', hloop, heq, hlen', hidx'⟩ :=
    fdLoop_allOk_spec l [] (pushByte ⟨List.replicate 64 0, junk, 0, true⟩ 123) ⟨[], 0⟩
      (by simpa [pushByte] using coupled_init)
      (by simp [pushByte, hjunk])
      (by simp [pushByte])
      (fun b hb hbz => h0 (hbz ▸ hb))
  rw [show ((some l).getD ([] : List Nat)) = l from rfl, hloop]
  obtain ⟨hfl, hret⟩ := fdFinish_allOk_spec (s := s') hlen' hidx'
  refine ⟨?_, hret⟩
  rw [hfl, heq, htake]
  rw [show (pushByte ⟨List.replicate 64 0, junk, 0, true⟩ 123).is_first_duplicate = true
    from rfl]
  simp [specDups]

/-! ### Claim theorems -/

/-- Claim C1: for every non-empty NUL-free input string, the report written
by `find_duplicates` is the opening brace, then each printable ASCII symbol
occurring at least twice listed exactly once in order of second occurrence
(this is `specDups`, whose definition appends a symbol exactly at its second
occurrence during the left-to-right scan), then the closing brace and a
newline; the input `aabbcc` yields exactly the bytes of `{a, b, c}` and a
newline. -/
theorem fd_C1 (l junk : List Nat) (hjunk : junk.length = 256)
    (hne : l ≠ []) (h0 : 0 ∉ l) :
    (find_duplicates allOk junk (some l)).1.flushed
        = [123] ++ fmtDups true (specDups l) ++ [125, 10] ∧
    (find_duplicates allOk junk (some l)).2 = 0 ∧
    (∀ c, c ∈ specDups l ↔ (32 ≤ c ∧ c ≤ 126 ∧ 2 ≤ l.count c)) ∧
    (specDups l).Nodup ∧
    (find_duplicates allOk junk0 (some [97, 97, 98, 98, 99, 99])).1.flushed
        = [123, 97, 44, 32, 98, 44, 32, 99, 125, 10] := by
  obtain ⟨h1, h2⟩ := find_duplicates_allOk l junk hjunk hne h0
  refine ⟨h1, h2, ?_, nodup_specDups l, by rfl⟩
  intro c
  rw [mem_specDups_iff]
  simp [printable, and_assoc]

/-- Witness for C1 at the concrete input `aabbcc`. -/
theorem fd_C1_witness :
    (find_duplicates allOk junk0 (some [97, 97, 98, 98, 99, 99])).1.flushed
        = [123] ++ fmtDups true (specDups [97, 97, 98, 98, 99, 99]) ++ [125, 10] :=
  (fd_C1 [97, 97, 98, 98, 99, 99] junk0 (by decide) (by decide) (by decide)).1

/-- Claim C2: on the doubled full printable alphabet (code 32 twice, ...,
code 126 twice) the concatenated sink bytes are the opening brace, the 95
printable characters in ascending order separated by comma-space, the
closing brace and a newline; and the 256-byte buffer indeed forced more
than one flush (exactly 2 write calls happen), so the concatenated output
is independent of the flush boundaries. -/
theorem fd_C2 :
    (find_duplicates allOk junk0 (some doubledAlphabet)).1.flushed
        = [123] ++ fmtDups true (List.range' 32 95) ++ [125, 10] ∧
    (find_duplicates allOk junk0 (some doubledAlphabet)).2 = 0 ∧
    (find_duplicates allOk junk0 (some doubledAlphabet)).1.nwrites = 2 := by
  refine ⟨by decide, by decide, by decide⟩

/-- Claim C3 (code evaluation at the failing inputs): on a NULL pointer and
on the empty string, `find_duplicates` writes the diagnostic text and a
newline FOLLOWED BY A STRAY NUL BYTE (the C call passes length 31, the size
of the string literal including its terminator, instead of 30), performs no
scan and returns -1.  The claim asserts exactly the diagnostic and the
newline, without the extra byte. -/
theorem fd_C3 :
    (find_duplicates allOk junk0 none).1.flushed
        = [73, 110, 112, 117, 116, 32, 115, 116, 114, 105, 110, 103, 32, 105, 115, 32,
           110, 117, 108, 108, 32, 111, 114, 32, 101, 109, 112, 116, 121, 10] ++ [0] ∧
    (find_duplicates allOk junk0 none).2 = -1 ∧
    (find_duplicates allOk junk0 (some [])).1.flushed
        = [73, 110, 112, 117, 116, 32, 115, 116, 114, 105, 110, 103, 32, 105, 115, 32,
           110, 117, 108, 108, 32, 111, 114, 32, 101, 109, 112, 116, 121, 10] ++ [0] ∧
    (find_duplicates allOk junk0 (some [])).2 = -1 :=
  ⟨rfl, rfl, rfl, rfl⟩

/-- Claim C4: when no printable character repeats (NUL-free non-empty
input), the whole output is the three bytes of `{}` and a newline, and the
return value is 0. -/
theorem fd_C4 (l junk : List Nat) (hjunk : junk.length = 256)
    (hne : l ≠ []) (h0 : 0 ∉ l)
    (hcount : ∀ c ∈ l, 32 ≤ c → c ≤ 126 → l.count c ≤ 1) :
    (find_duplicates allOk junk (some l)).1.flushed = [123, 125, 10] ∧
    (find_duplicates allOk junk (some l)).2 = 0 := by
  obtain ⟨h1, h2⟩ := find_duplicates_allOk l junk hjunk hne h0
  have hnil : specDups l = [] := specDups_eq_nil l (fun c hc hp => by
    have hpc : 32 ≤ c ∧ c ≤ 126 := of_decide_eq_true hp
    exact hcount c hc hpc.1 hpc.2)
  rw [hnil] at h1
  exact ⟨by simpa using h1, h2⟩

/-- Witness for C4 at the concrete input `abc`. -/
theorem fd_C4_witness :
    (find_duplicates allOk junk0 (some [97, 98, 99])).1.flushed = [123, 125, 10] ∧
    (find_duplicates allOk junk0 (some [97, 98, 99])).2 = 0 :=
  fd_C4 [97, 98, 99] junk0 (by decide) (by decide) (by decide) (by decide)

/-- Claim C5: a printable symbol occurring three or more times still appears
exactly once in the report (its count in the emitted duplicate list is 1),
and the input `aaaa` yields exactly the bytes of `{a}` and a newline. -/
theorem fd_C5 (l junk : List Nat) (hjunk : junk.length = 256)
    (hne : l ≠ []) (h0 : 0 ∉ l) (c : Nat) (hc1 : 32 ≤ c) (hc2 : c ≤ 126)
    (h3 : 3 ≤ l.count c) :
    (specDups l).count c = 1 ∧
    (find_duplicates allOk junk (some l)).1.flushed
        = [123] ++ fmtDups true (specDups l) ++ [125, 10] ∧
    (find_duplicates allOk junk0 (some [97, 97, 97, 97])).1.flushed
        = [123, 97, 125, 10] := by
  obtain ⟨h1, h2⟩ := find_duplicates_allOk l junk hjunk hne h0
  refine ⟨?_, h1, by rfl⟩
  have hmem : c ∈ specDups l :=
    (mem_specDups_iff l c).mpr ⟨decide_eq_true ⟨hc1, hc2⟩, by omega⟩
  exact List.count_eq_one_of_mem (nodup_specDups l) hmem

/-- Witness for C5 at the concrete input `bbb`. -/
theorem fd_C5_witness :
    (specDups [98, 98, 98]).count 98 = 1 ∧
    (find_duplicates allOk junk0 (some [98, 98, 98])).1.flushed
        = [123] ++ fmtDups true (specDups [98, 98, 98]) ++ [125, 10] ∧
    (find_duplicates allOk junk0 (some [97, 97, 97, 97])).1.flushed
        = [123, 97, 125, 10] :=
  fd_C5 [98, 98, 98] junk0 (by decide) (by decide) (by decide) 98
    (by decide) (by decide) (by decide)

/-! ### Non-printable characters (C6) -/

theorem fdLoop_filter (ok : Nat → Bool) :
    ∀ (l : List Nat) (st : FDState) (s : Sink), 0 ∉ l →
      fdLoop ok l st s = fdLoop ok (l.filter printable) st s
  | [], _, _, _ => rfl
  | c :: rest, st, s, h0 => by
    have hc0 : c ≠ 0 := fun h => h0 (h ▸ List.mem_cons_self c rest)
    have h0r : 0 ∉ rest := fun h => h0 (List.mem_cons_of_mem c h)
    by_cases hp : printable c = true
    · rw [List.filter_cons_of_pos hp]
      simp only [fdLoop]
      rw [if_neg hc0, if_neg hc0]
      cases hb : fdBody ok c st s with
      | inl p =>
        obtain ⟨st', s'⟩ := p
        exact fdLoop_filter ok rest st' s' h0r
      | inr s1 => rfl
    · rw [List.filter_cons_of_neg (by simpa using hp)]
      simp only [fdLoop]
      rw [if_neg hc0,
        fdBody_not_printable st s (fun hpc => hp (decide_eq_true hpc))]
      exact fdLoop_filter ok rest st s h0r

/-- Counterexample to claim C6 as stated: for the input consisting of the
single control byte 1, the scan runs and prints the empty report with
return value 0, but removing all non-printable characters leaves the empty
input, which takes the error path instead — so the output is NOT left
unchanged by removing non-printable characters. -/
theorem fd_C6_counterexample :
    (find_duplicates allOk junk0 (some [1])).1.flushed = [123, 125, 10] ∧
    (find_duplicates allOk junk0 (some [1])).2 = 0 ∧
    (find_duplicates allOk junk0 (some (List.filter printable [1]))).1.flushed
        = emptyMsg ∧
    (find_duplicates allOk junk0 (some (List.filter printable [1]))).2 = -1 ∧
    (find_duplicates allOk junk0 (some [1])).1.flushed
      ≠ (find_duplicates allOk junk0 (some (List.filter printable [1]))).1.flushed := by
  exact ⟨rfl, rfl, rfl, rfl, by decide⟩

/-- Claim C6 (amended): a non-printable character is ignored by the loop
body (no state change, no output), and removing all non-printable
characters from a NUL-free input leaves the entire result (sink contents,
write count and return value) unchanged PROVIDED at least one printable
character remains (otherwise the filtered input is empty and takes the
error path). -/
theorem fd_C6 (ok : Nat → Bool) (junk l : List Nat) (h0 : 0 ∉ l)
    (hp : ∃ c ∈ l, printable c = true) :
    (∀ (c : Nat) (st : FDState) (s : Sink), printable c = false →
        fdBody ok c st s = .inl (st, s)) ∧
    find_duplicates ok junk (some l)
      = find_duplicates ok junk (some (l.filter printable)) := by
  constructor
  · intro c st s hpc
    exact fdBody_not_printable st s (fun h => by simp [printable, h] at hpc)
  · obtain ⟨c, hcl, hcp⟩ := hp
    have hne : l ≠ [] := fun h => by simp [h] at hcl
    have hfne : l.filter printable ≠ [] := fun h => by
      have : c ∈ l.filter printable := List.mem_filter.mpr ⟨hcl, hcp⟩
      simp [h] at this
    have h0f : 0 ∉ l.filter printable := fun h => h0 (List.mem_of_mem_filter h)
    rw [find_duplicates, find_duplicates]
    dsimp only
    rw [strEmpty_false hne h0, strEmpty_false hfne h0f]
    simp only [Bool.false_eq_true, if_false, Option.getD_some]
    rw [fdLoop_filter ok l _ _ h0]

/-- Witness for C6 at the concrete input `a`, control byte 1, `a`. -/
theorem fd_C6_witness :
    (∀ (c : Nat) (st : FDState) (s : Sink), printable c = false →
        fdBody allOk c st s = .inl (st, s)) ∧
    find_duplicates allOk junk0 (some [97, 1, 97])
      = find_duplicates allOk junk0 (some (List.filter printable [97, 1, 97])) :=
  fd_C6 allOk junk0 [97, 1, 97] (by decide) (by decide)

/-! ### Independence from the uninitialized buffer contents (C8) -/

theorem pushByte_rel (st₁ st₂ : FDState) (b : Nat)
    (hi : st₁.output_idx = st₂.output_idx)
    (hl : st₁.result.length = st₂.result.length)
    (htk : st₁.result.take st₁.output_idx = st₂.result.take st₂.output_idx) :
    (pushByte st₁ b).output_idx = (pushByte st₂ b).output_idx ∧
    (pushByte st₁ b).result.length = (pushByte st₂ b).result.length ∧
    (pushByte st₁ b).result.take (pushByte st₁ b).output_idx
      = (pushByte st₂ b).result.take (pushByte st₂ b).output_idx := by
  refine ⟨by simp [pushByte, hi], by simp [pushByte, hl], ?_⟩
  by_cases hlt : st₁.output_idx < st₁.result.length
  · rw [pushByte_take _ b hlt, pushByte_take _ b (by omega), htk]
  · have hr1 : st₁.result.take st₁.output_idx = st₁.result :=
      List.take_of_length_le (by omega)
    have hr2 : st₂.result.take st₂.output_idx = st₂.result :=
      List.take_of_length_le (by omega)
    have hres : st₁.result = st₂.result := by rw [← hr1, htk, hr2]
    simp [pushByte, hi, hres]

theorem appendDup_rel {st₁ st₂ : FDState} (c : Nat)
    (hfd : st₁.is_first_duplicate = st₂.is_first_duplicate)
    (hi : st₁.output_idx = st₂.output_idx)
    (hl : st₁.result.length = st₂.result.length)
    (htk : st₁.result.take st₁.output_idx = st₂.result.take st₂.output_idx) :
    (appendDup st₁ c).output_idx = (appendDup st₂ c).output_idx ∧
    (appendDup st₁ c).result.length = (appendDup st₂ c).result.length ∧
    (appendDup st₁ c).result.take (appendDup st₁ c).output_idx
      = (appendDup st₂ c).result.take (appendDup st₂ c).output_idx := by
  cases hf : st₁.is_first_duplicate
  · have hf2 : st₂.is_first_duplicate = false := hfd ▸ hf
    simp only [appendDup, hf, hf2, Bool.false_eq_true, if_false]
    obtain ⟨a1, a2, a3⟩ := pushByte_rel st₁ st₂ 44 hi hl htk
    obtain ⟨b1, b2, b3⟩ := pushByte_rel _ _ 32 a1 a2 a3
    obtain ⟨c1, c2, c3⟩ := pushByte_rel _ _ c b1 b2 b3
    exact ⟨c1, c2, c3⟩
  · have hf2 : st₂.is_first_duplicate = true := hfd ▸ hf
    simp only [appendDup, hf, hf2, if_true]
    obtain ⟨c1, c2, c3⟩ := pushByte_rel _ _ c hi hl htk
    exact ⟨c1, c2, c3⟩

/-- The loop body is insensitive to the bytes of `result` beyond
`output_idx` (the uninitialized part of the buffer): two states agreeing on
everything except those bytes step to states that again agree, with
identical sink effects. -/
theorem fdBody_rel (ok : Nat → Bool) (c : Nat) {st₁ st₂ : FDState} (s : Sink)
    (ht : st₁.character_tracker = st₂.character_tracker)
    (hfd : st₁.is_first_duplicate = st₂.is_first_duplicate)
    (hi : st₁.output_idx = st₂.output_idx)
    (hl : st₁.result.length = st₂.result.length)
    (htk : st₁.result.take st₁.output_idx = st₂.result.take st₂.output_idx) :
    (∃ st₁' st₂' s', fdBody ok c st₁ s = .inl (st₁', s')
       ∧ fdBody ok c st₂ s = .inl (st₂', s')
       ∧ st₁'.character_tracker = st₂'.character_tracker
       ∧ st₁'.is_first_duplicate = st₂'.is_first_duplicate
       ∧ st₁'.output_idx = st₂'.output_idx
       ∧ st₁'.result.length = st₂'.result.length
       ∧ st₁'.result.take st₁'.output_idx = st₂'.result.take st₂'.output_idx) ∨
    (∃ s', fdBody ok c st₁ s = .inr s' ∧ fdBody ok c st₂ s = .inr s') := by
  rw [fdBody, fdBody, ← ht]
  by_cases hp : 32 ≤ c ∧ c ≤ 126
  · rw [if_pos hp, if_pos hp]
    by_cases h0 : st₁.character_tracker.getD (c >>> 2) 0 &&& (1 <<< (c &&& 3)) = 0
    · rw [if_pos h0, if_pos h0]
      exact .inl ⟨_, _, _, rfl, rfl, by simp [ht], hfd, hi, hl, htk⟩
    · rw [if_neg h0, if_neg h0]
      by_cases hd0 : st₁.character_tracker.getD (c >>> 2) 0
          &&& ((1 <<< (c &&& 3)) <<< 4) = 0
      · rw [if_pos hd0, if_pos hd0]
        dsimp only
        by_cases hflush : st₁.output_idx + 3 ≥ RESULT_BUFFER_SIZE
        · rw [if_pos hflush, if_pos (hi ▸ hflush), htk]
          cases hw : writeSink ok s (st₂.result.take st₂.output_idx) with
          | mk s1 flag =>
            cases flag
            · exact .inr ⟨s1, rfl, rfl⟩
            · refine .inl ⟨_, _, s1, rfl, rfl, ?_, ?_, ?_, ?_, ?_⟩
              · simp [appendDup_tracker]
              · rw [appendDup_first, appendDup_first]
              · exact (appendDup_rel c (by exact hfd) (by rfl) (by exact hl) (by simp)).1
              · exact (appendDup_rel c (by exact hfd) (by rfl) (by exact hl) (by simp)).2.1
              · exact (appendDup_rel c (by exact hfd) (by rfl) (by exact hl) (by simp)).2.2
        · rw [if_neg hflush, if_neg (hi ▸ hflush)]
          refine .inl ⟨_, _, s, rfl, rfl, ?_, ?_, ?_, ?_, ?_⟩
          · simp [appendDup_tracker]
          · rw [appendDup_first, appendDup_first]
          · exact (appendDup_rel c (by exact hfd) (by exact hi) (by exact hl)
              (by exact htk)).1
          · exact (appendDup_rel c (by exact hfd) (by exact hi) (by exact hl)
              (by exact htk)).2.1
          · exact (appendDup_rel c (by exact hfd) (by exact hi) (by exact hl)
              (by exact htk)).2.2
      · rw [if_neg hd0, if_neg hd0]
        exact .inl ⟨_, _, _, rfl, rfl, ht, hfd, hi, hl, htk⟩
  · rw [if_neg hp, if_neg hp]
    exact .inl ⟨_, _, _, rfl, rfl, ht, hfd, hi, hl, htk⟩

theorem fdLoop_rel (ok : Nat → Bool) :
    ∀ (l : List Nat) (st₁ st₂ : FDState) (s : Sink),
      st₁.character_tracker = st₂.character_tracker →
      st₁.is_first_duplicate = st₂.is_first_duplicate →
      st₁.output_idx = st₂.output_idx →
      st₁.result.length = st₂.result.length →
      st₁.result.take st₁.output_idx = st₂.result.take st₂.output_idx →
      (∃ st₁' st₂' s', fdLoop ok l st₁ s = .inl (st₁', s')
         ∧ fdLoop ok l st₂ s = .inl (st₂', s')
         ∧ st₁'.character_tracker = st₂'.character_tracker
         ∧ st₁'.is_first_duplicate = st₂'.is_first_duplicate
         ∧ st₁'.output_idx = st₂'.output_idx
         ∧ st₁'.result.length = st₂'.result.length
         ∧ st₁'.result.take st₁'.output_idx = st₂'.result.take st₂'.output_idx) ∨
      (∃ s', fdLoop ok l st₁ s = .inr s' ∧ fdLoop ok l st₂ s = .inr s')
  | [], st₁, st₂, s, ht, hfd, hi, hl, htk =>
    .inl ⟨st₁, st₂, s, rfl, rfl, ht, hfd, hi, hl, htk⟩
  | c :: rest, st₁, st₂, s, ht, hfd, hi, hl, htk => by
    simp only [fdLoop]
    by_cases hc0 : c = 0
    · rw [if_pos hc0, if_pos hc0]
      exact .inl ⟨st₁, st₂, s, rfl, rfl, ht, hfd, hi, hl, htk⟩
    · rw [if_neg hc0, if_neg hc0]
      rcases fdBody_rel ok c s ht hfd hi hl htk with
        ⟨st₁', st₂', s', hb1, hb2, ht', hfd', hi', hl', htk'⟩ | ⟨s', hb1, hb2⟩
      · rw [hb1, hb2]
        exact fdLoop_rel ok rest _ _ s' ht' hfd' hi' hl' htk'
      · rw [hb1, hb2]
        exact .inr ⟨s', rfl, rfl⟩

theorem fdFinish_rel (ok : Nat → Bool) {st₁ st₂ : FDState} (s : Sink)
    (_hfd : st₁.is_first_duplicate = st₂.is_first_duplicate)
    (hi : st₁.output_idx = st₂.output_idx)
    (hl : st₁.result.length = st₂.result.length)
    (htk : st₁.result.take st₁.output_idx = st₂.result.take st₂.output_idx) :
    fdFinish ok (.inl (st₁, s)) = fdFinish ok (.inl (st₂, s)) := by
  rw [fdFinish, fdFinish]
  dsimp only
  by_cases hf : st₁.output_idx + 2 ≥ RESULT_BUFFER_SIZE
  · rw [if_pos hf, if_pos (hi ▸ hf), htk]
    cases hw : writeSink ok s (st₂.result.take st₂.output_idx) with
    | mk s1 flag =>
      cases flag
      · rfl
      · dsimp only
        obtain ⟨a1, a2, a3⟩ := pushByte_rel { st₁ with output_idx := 0 }
          { st₂ with output_idx := 0 } 125 rfl (by exact hl) (by simp)
        obtain ⟨b1, b2, b3⟩ := pushByte_rel _ _ 10 a1 a2 a3
        rw [b3]
  · rw [if_neg hf, if_neg (hi ▸ hf)]
    dsimp only
    obtain ⟨a1, a2, a3⟩ := pushByte_rel st₁ st₂ 125 hi hl htk
    obtain ⟨b1, b2, b3⟩ := pushByte_rel _ _ 10 a1 a2 a3
    rw [b3]

/-- Claim C8: `find_duplicates` is deterministic.  It is a pure function of
its input, and its entire observable result (sink bytes, write count,
return value) does not depend on the uninitialized initial contents of the
fresh 256-byte output buffer, so two invocations on the same input from
fresh state produce byte-identical output and the same return value. -/
theorem fd_C8 (ok : Nat → Bool) (junk₁ junk₂ : List Nat) (input : Option (List Nat))
    (h1 : junk₁.length = 256) (h2 : junk₂.length = 256) :
    find_duplicates ok junk₁ input = find_duplicates ok junk₂ input := by
  rw [find_duplicates, find_duplicates]
  dsimp only
  by_cases he : strEmpty input = true
  · rw [if_pos he, if_pos he]
  · rw [if_neg he, if_neg he]
    have htk : (pushByte ⟨List.replicate 64 0, junk₁, 0, true⟩ 123).result.take
        (pushByte ⟨List.replicate 64 0, junk₁, 0, true⟩ 123).output_idx
        = (pushByte ⟨List.replicate 64 0, junk₂, 0, true⟩ 123).result.take
          (pushByte ⟨List.replicate 64 0, junk₂, 0, true⟩ 123).output_idx := by
      rw [pushByte_take _ 123 (by simp [h1]), pushByte_take _ 123 (by simp [h2])]
      simp
    rcases fdLoop_rel ok (input.getD [])
        (pushByte ⟨List.replicate 64 0, junk₁, 0, true⟩ 123)
        (pushByte ⟨List.replicate 64 0, junk₂, 0, true⟩ 123) ⟨[], 0⟩ rfl rfl rfl
        (by simp [pushByte, h1, h2]) htk with
      ⟨st₁', st₂', s', hb1, hb2, _, hfd', hi', hl', htk'⟩ | ⟨s', hb1, hb2⟩
    · rw [hb1, hb2]
      exact fdFinish_rel ok s' hfd' hi' hl' htk'
    · rw [hb1, hb2]

/-- Witness for C8: two different junk contents for the buffer, same input. -/
theorem fd_C8_witness :
    find_duplicates allOk junk0 (some [97, 97])
      = find_duplicates allOk (List.replicate 256 7) (some [97, 97]) :=
  fd_C8 allOk junk0 (List.replicate 256 7) (some [97, 97]) (by decide) (by decide)

/-! ### Write-failure behavior (C7) -/

/-- One loop-body step under an arbitrary write oracle: either no write was
attempted (sink untouched), or the single attempted write succeeded (the run
agrees with the all-success run), or it failed and the body aborts with the
sink contents unchanged and the attempt counted. -/
theorem fdBody_oracle (ok : Nat → Bool) (c : Nat) (st : FDState) (s : Sink) :
    (fdBody ok c st s = fdBody allOk c st s ∧
      ∃ st1 s1, fdBody ok c st s = .inl (st1, s1) ∧
        (s1 = s ∨ (ok s.nwrites = true ∧ s1.nwrites = s.nwrites + 1 ∧
          ∃ d, s1.flushed = s.flushed ++ d))) ∨
    (∃ s1, fdBody ok c st s = .inr s1 ∧ ok s.nwrites = false ∧
      s1.nwrites = s.nwrites + 1 ∧ s1.flushed = s.flushed ∧
      ∃ st1' s1', fdBody allOk c st s = .inl (st1', s1') ∧
        s.flushed <+: s1'.flushed) := by
  rw [fdBody, fdBody]
  by_cases hp : 32 ≤ c ∧ c ≤ 126
  · rw [if_pos hp, if_pos hp]
    by_cases h0 : st.character_tracker.getD (c >>> 2) 0 &&& (1 <<< (c &&& 3)) = 0
    · rw [if_pos h0, if_pos h0]
      exact .inl ⟨rfl, _, _, rfl, .inl rfl⟩
    · rw [if_neg h0, if_neg h0]
      by_cases hd0 : st.character_tracker.getD (c >>> 2) 0
          &&& ((1 <<< (c &&& 3)) <<< 4) = 0
      · rw [if_pos hd0, if_pos hd0]
        dsimp only
        by_cases hflush : st.output_idx + 3 ≥ RESULT_BUFFER_SIZE
        · rw [if_pos hflush, if_pos hflush, writeSink_allOk]
          cases hok : ok s.nwrites
          · have hw : writeSink ok s (st.result.take st.output_idx)
                = (⟨s.flushed, s.nwrites + 1⟩, false) := by
              simp [writeSink, hok]
            rw [hw]
            exact .inr ⟨⟨s.flushed, s.nwrites + 1⟩, rfl, rfl, rfl, rfl, _, _, rfl,
              List.prefix_append s.flushed _⟩
          · have hw : writeSink ok s (st.result.take st.output_idx)
                = (⟨s.flushed ++ st.result.take st.output_idx, s.nwrites + 1⟩, true) := by
              simp [writeSink, hok]
            rw [hw]
            exact .inl ⟨rfl, _, _, rfl, .inr ⟨rfl, rfl, _, rfl⟩⟩
        · rw [if_neg hflush, if_neg hflush]
          exact .inl ⟨rfl, _, _, rfl, .inl rfl⟩
      · rw [if_neg hd0, if_neg hd0]
        exact .inl ⟨rfl, _, _, rfl, .inl rfl⟩
  · rw [if_neg hp, if_neg hp]
    exact .inl ⟨rfl, _, _, rfl, .inl rfl⟩

/-- With the all-success oracle the loop never aborts, and the sink contents
only grow. -/
theorem fdLoop_allOk_inl :
    ∀ (l : List Nat) (st : FDState) (s : Sink),
      ∃ st' s', fdLoop allOk l st s = .inl (st', s') ∧ s.flushed <+: s'.flushed
  | [], st, s => ⟨st, s, rfl, List.prefix_refl _⟩
  | c :: rest, st, s => by
    simp only [fdLoop]
    by_cases hc0 : c = 0
    · rw [if_pos hc0]
      exact ⟨st, s, rfl, List.prefix_refl _⟩
    · rw [if_neg hc0]
      rcases fdBody_oracle allOk c st s with ⟨-, st1, s1, hb, hsink⟩ | ⟨s1, -, hok, -⟩
      · rw [hb]
        obtain ⟨st', s', hrec, hpre⟩ := fdLoop_allOk_inl rest st1 s1
        refine ⟨st', s', hrec, ?_⟩
        rcases hsink with rfl | ⟨-, -, d, hd⟩
        · exact hpre
        · exact List.IsPrefix.trans (hd ▸ List.prefix_append s.flushed d) hpre
      · rw [allOk] at hok
        cases hok

/-- The loop under an arbitrary oracle: if it exits normally then every
attempted write succeeded and the run coincides with the all-success run;
if it aborts, the last attempt is the unique failed one, everything
attempted before it succeeded, the sink keeps exactly what was flushed
before the failure, and that is a prefix of what the all-success run
flushes. -/
theorem fdLoop_oracle (ok : Nat → Bool) :
    ∀ (l : List Nat) (st : FDState) (s : Sink),
      (fdLoop ok l st s = fdLoop allOk l st s ∧
        ∃ st' s', fdLoop ok l st s = .inl (st', s') ∧
          s.nwrites ≤ s'.nwrites ∧ s.flushed <+: s'.flushed ∧
          (∀ j, s.nwrites ≤ j → j < s'.nwrites → ok j = true)) ∨
      (∃ s', fdLoop ok l st s = .inr s' ∧
        s.nwrites < s'.nwrites ∧ ok (s'.nwrites - 1) = false ∧
        (∀ j, s.nwrites ≤ j → j < s'.nwrites - 1 → ok j = true) ∧
        s.flushed <+: s'.flushed ∧
        ∃ st'' s'', fdLoop allOk l st s = .inl (st'', s'') ∧
          s'.flushed <+: s''.flushed)
  | [], st, s =>
    .inl ⟨rfl, st, s, rfl, le_rfl, List.prefix_refl _, fun j hj1 hj2 => absurd hj1 (by omega)⟩
  | c :: rest, st, s => by
    simp only [fdLoop]
    by_cases hc0 : c = 0
    · rw [if_pos hc0, if_pos hc0]
      exact .inl ⟨rfl, st, s, rfl, le_rfl, List.prefix_refl _,
        fun j hj1 hj2 => absurd hj1 (by omega)⟩
    · rw [if_neg hc0, if_neg hc0]
      rcases fdBody_oracle ok c st s with ⟨heq, st1, s1, hb, hsink⟩ |
        ⟨s1, hb, hok, hn1, hfl, st1', s1', hba, hpreB⟩
      · rw [hb, ← heq, hb]
        have hstep : s.nwrites ≤ s1.nwrites ∧ s.flushed <+: s1.flushed ∧
            (∀ j, s.nwrites ≤ j → j < s1.nwrites → ok j = true) := by
          rcases hsink with rfl | ⟨hoks, hn, d, hd⟩
          · exact ⟨le_rfl, List.prefix_refl _, fun j h1 h2 => absurd h1 (by omega)⟩
          · refine ⟨by omega, hd ▸ List.prefix_append s.flushed d, ?_⟩
            intro j h1 h2
            have : j = s.nwrites := by omega
            exact this ▸ hoks
        rcases fdLoop_oracle ok rest st1 s1 with
          ⟨heqr, st', s', hrec, hn', hpre', hint'⟩ |
          ⟨s', hrec, hn', hokf, hint', hpre', st'', s'', hreca, hprea⟩
        · refine .inl ⟨heqr, st', s', hrec, by omega, hstep.2.1.trans hpre', ?_⟩
          intro j h1 h2
          by_cases hj : j < s1.nwrites
          · exact hstep.2.2 j h1 hj
          · exact hint' j (by omega) h2
        · refine .inr ⟨s', hrec, by omega, hokf, ?_, hstep.2.1.trans hpre',
            st'', s'', hreca, hprea⟩
          intro j h1 h2
          by_cases hj : j < s1.nwrites
          · exact hstep.2.2 j h1 hj
          · exact hint' j (by omega) h2
      · rw [hb, hba]
        obtain ⟨st'', s'', hreca, hprea⟩ := fdLoop_allOk_inl rest st1' s1'
        refine .inr ⟨s1, rfl, by omega, ?_, ?_, hfl ▸ List.prefix_refl _,
          st'', s'', hreca, ?_⟩
        · rw [show s1.nwrites - 1 = s.nwrites by omega]
          exact hok
        · intro j h1 h2
          omega
        · exact hfl ▸ (hpreB.trans hprea)

/-- The post-loop epilogue under an arbitrary oracle: either every
attempted write succeeded, the run coincides with the all-success epilogue
and returns 0, or the last attempted write is the unique failed one, the
call returns -1, the sink keeps what was flushed before the failure, and
that is a prefix of the all-success epilogue output. -/
theorem fdFinish_oracle (ok : Nat → Bool) (st : FDState) (s : Sink) :
    ∃ s' r, fdFinish ok (.inl (st, s)) = (s', r) ∧
      ((r = 0 ∧ fdFinish allOk (.inl (st, s)) = (s', 0) ∧
         s.nwrites ≤ s'.nwrites ∧ s.flushed <+: s'.flushed ∧
         (∀ j, s.nwrites ≤ j → j < s'.nwrites → ok j = true)) ∨
       (r = -1 ∧ s.nwrites < s'.nwrites ∧ ok (s'.nwrites - 1) = false ∧
         (∀ j, s.nwrites ≤ j → j < s'.nwrites - 1 → ok j = true) ∧
         s.flushed <+: s'.flushed ∧
         s'.flushed <+: (fdFinish allOk (.inl (st, s))).1.flushed)) := by
  rw [fdFinish, fdFinish]
  dsimp only
  by_cases hflush : st.output_idx + 2 ≥ RESULT_BUFFER_SIZE
  · rw [if_pos hflush, if_pos hflush, writeSink_allOk]
    dsimp only
    rw [writeSink_allOk]
    dsimp only
    cases hok1 : ok s.nwrites
    · have hw1 : writeSink ok s (st.result.take st.output_idx)
          = (⟨s.flushed, s.nwrites + 1⟩, false) := by
        simp [writeSink, hok1]
      rw [hw1]
      refine ⟨⟨s.flushed, s.nwrites + 1⟩, -1, rfl,
        .inr ⟨rfl, by dsimp only; omega, ?_, ?_, ?_, ?_⟩⟩
      · simpa using hok1
      · intro j h1 h2
        dsimp only at h2
        omega
      · exact List.prefix_refl _
      · dsimp only
        rw [List.append_assoc]
        exact List.prefix_append _ _
    · have hw1 : writeSink ok s (st.result.take st.output_idx)
          = (⟨s.flushed ++ st.result.take st.output_idx, s.nwrites + 1⟩, true) := by
        simp [writeSink, hok1]
      rw [hw1]
      dsimp only
      cases hok2 : ok (s.nwrites + 1)
      · have hw2 : ∀ d, writeSink ok ⟨s.flushed ++ st.result.take st.output_idx,
            s.nwrites + 1⟩ d
            = (⟨s.flushed ++ st.result.take st.output_idx, s.nwrites + 2⟩, false) := by
          intro d
          simp [writeSink, hok2]
        rw [hw2]
        refine ⟨_, -1, rfl, .inr ⟨rfl, by dsimp only; omega, ?_, ?_, ?_, ?_⟩⟩
        · simpa using hok2
        · intro j h1 h2
          dsimp only at h2
          have hj : j = s.nwrites := by omega
          exact hj ▸ hok1
        · exact List.prefix_append _ _
        · dsimp only
          exact List.prefix_append _ _
      · have hw2 : ∀ d, writeSink ok ⟨s.flushed ++ st.result.take st.output_idx,
            s.nwrites + 1⟩ d
            = (⟨(s.flushed ++ st.result.take st.output_idx) ++ d, s.nwrites + 2⟩, true) := by
          intro d
          simp [writeSink, hok2]
        rw [hw2]
        refine ⟨_, 0, rfl, .inl ⟨rfl, rfl, by dsimp only; omega, ?_, ?_⟩⟩
        · dsimp only
          rw [List.append_assoc]
          exact List.prefix_append _ _
        · intro j h1 h2
          dsimp only at h2
          rcases (by omega : j = s.nwrites ∨ j = s.nwrites + 1) with hj | hj
          · exact hj ▸ hok1
          · exact hj ▸ hok2
  · rw [if_neg hflush, if_neg hflush]
    dsimp only
    rw [writeSink_allOk]
    dsimp only
    cases hok1 : ok s.nwrites
    · have hw1 : ∀ d, writeSink ok s d = (⟨s.flushed, s.nwrites + 1⟩, false) := by
        intro d
        simp [writeSink, hok1]
      rw [hw1]
      refine ⟨_, -1, rfl, .inr ⟨rfl, by dsimp only; omega, ?_, ?_, ?_, ?_⟩⟩
      · simpa using hok1
      · intro j h1 h2
        dsimp only at h2
        omega
      · exact List.prefix_refl _
      · dsimp only
        exact List.prefix_append _ _
    · have hw1 : ∀ d, writeSink ok s d = (⟨s.flushed ++ d, s.nwrites + 1⟩, true) := by
        intro d
        simp [writeSink, hok1]
      rw [hw1]
      refine ⟨_, 0, rfl, .inl ⟨rfl, rfl, by dsimp only; omega, ?_, ?_⟩⟩
      · dsimp only
        exact List.prefix_append _ _
      · intro j h1 h2
        dsimp only at h2
        have hj : j = s.nwrites := by omega
        exact hj ▸ hok1

/-- Claim C7: if any write to the sink fails, `find_duplicates` returns -1
having aborted at that write: the failed attempt is the last one (nothing
is attempted after it and it is not retried — every earlier attempt
succeeded), and the sink retains exactly the output flushed before the
failure, a prefix of the complete output of a failure-free run. -/
theorem fd_C7 (ok : Nat → Bool) (junk : List Nat) (input : Option (List Nat))
    (hfail : ∃ k, k < (find_duplicates ok junk input).1.nwrites ∧ ok k = false) :
    (find_duplicates ok junk input).2 = -1 ∧
    ok ((find_duplicates ok junk input).1.nwrites - 1) = false ∧
    (∀ j, j < (find_duplicates ok junk input).1.nwrites - 1 → ok j = true) ∧
    (find_duplicates ok junk input).1.flushed
      <+: (find_duplicates allOk junk input).1.flushed := by
  rw [find_duplicates] at hfail ⊢
  rw [find_duplicates]
  dsimp only at hfail ⊢
  by_cases he : strEmpty input = true
  · rw [if_pos he] at hfail ⊢
    rw [if_pos he]
    cases hok0 : ok 0
    · have hw : writeSink ok ⟨[], 0⟩ emptyMsg = (⟨[], 1⟩, false) := by
        simp [writeSink, hok0]
      rw [hw] at hfail ⊢
      refine ⟨rfl, ?_, ?_, ?_⟩
      · simpa using hok0
      · intro j hj
        dsimp only at hj
        omega
      · exact List.nil_prefix
    · have hw : writeSink ok ⟨[], 0⟩ emptyMsg = (⟨emptyMsg, 1⟩, true) := by
        simp [writeSink, hok0]
      rw [hw] at hfail
      obtain ⟨k, hk1, hk2⟩ := hfail
      dsimp only at hk1
      have hk0 : k = 0 := by omega
      rw [hk0, hok0] at hk2
      cases hk2
  · rw [if_neg he] at hfail ⊢
    rw [if_neg he]
    rcases fdLoop_oracle ok (input.getD [])
        (pushByte ⟨List.replicate 64 0, junk, 0, true⟩ 123) ⟨[], 0⟩ with
      ⟨heq, st', s', hloop, -, -, hint⟩ |
      ⟨s', hloop, -, hokl, hint, -, st'', s'', hloopa, hpreL⟩
    · rw [hloop] at hfail ⊢
      rw [← heq, hloop]
      obtain ⟨s2, r, hfin, hcase⟩ := fdFinish_oracle ok st' s'
      rw [hfin] at hfail ⊢
      rcases hcase with ⟨hr0, hfina, -, -, hint2⟩ | ⟨hrm1, hn2, hokl2, hint2, -, hpreA⟩
      · obtain ⟨k, hk1, hk2⟩ := hfail
        by_cases hks : k < s'.nwrites
        · rw [hint k (Nat.zero_le k) hks] at hk2
          cases hk2
        · rw [hint2 k (by omega) hk1] at hk2
          cases hk2
      · refine ⟨hrm1, hokl2, ?_, hpreA⟩
        intro j hj
        by_cases hjs : j < s'.nwrites
        · exact hint j (Nat.zero_le j) hjs
        · exact hint2 j (by omega) hj
    · rw [hloop] at hfail ⊢
      rw [hloopa]
      refine ⟨rfl, hokl, ?_, ?_⟩
      · intro j hj
        exact hint j (Nat.zero_le j) hj
      · obtain ⟨s2a, ra, hfina, hcasea⟩ := fdFinish_oracle allOk st'' s''
        rw [hfina]
        rcases hcasea with ⟨-, -, -, hpre2, -⟩ | ⟨-, -, hbad, -⟩
        · exact hpreL.trans hpre2
        · simp [allOk] at hbad

/-- Witness for C7: an oracle that fails every write, on input `aa`. -/
theorem fd_C7_witness :
    (find_duplicates (fun _ => false) junk0 (some [97, 97])).2 = -1 ∧
    (fun _ => (false : Bool))
        ((find_duplicates (fun _ => false) junk0 (some [97, 97])).1.nwrites - 1) = false ∧
    (∀ j, j < (find_duplicates (fun _ => false) junk0 (some [97, 97])).1.nwrites - 1 →
        (fun _ => (false : Bool)) j = true) ∧
    (find_duplicates (fun _ => false) junk0 (some [97, 97])).1.flushed
      <+: (find_duplicates allOk junk0 (some [97, 97])).1.flushed :=
  fd_C7 (fun _ => false) junk0 (some [97, 97]) ⟨0, by decide, rfl⟩

/-! ### Bounds-checked instrumentation (C9) -/

theorem pushByteB_eq {st : FDState} (b : Nat) (h : st.output_idx < RESULT_BUFFER_SIZE) :
    pushByteB st b = some (pushByte st b) := by
  rw [pushByteB, if_pos h]

theorem appendDupB_eq {st : FDState} (c : Nat)
    (h : st.output_idx + 3 ≤ RESULT_BUFFER_SIZE) :
    appendDupB st c = some (appendDup st c) := by
  rw [RESULT_BUFFER_SIZE] at h
  cases hf : st.is_first_duplicate
  · rw [appendDupB, appendDup]
    simp only [hf, Bool.false_eq_true, if_false]
    rw [pushByteB_eq 44 (by rw [RESULT_BUFFER_SIZE]; omega)]
    simp only [Option.bind_eq_bind, Option.some_bind]
    rw [pushByteB_eq 32 (by simp only [pushByte]; rw [RESULT_BUFFER_SIZE]; omega)]
    simp only [Option.some_bind]
    rw [pushByteB_eq c (by simp only [pushByte]; rw [RESULT_BUFFER_SIZE]; omega)]
    simp only [Option.some_bind]
  · rw [appendDupB, appendDup]
    simp only [hf, if_true]
    simp only [Option.bind_eq_bind, Option.some_bind]
    rw [pushByteB_eq c (by rw [RESULT_BUFFER_SIZE]; omega)]
    simp only [Option.some_bind]

/-- One bounds-checked step never trips its checks and agrees with the
plain body, and the body keeps `output_idx` at most 255. -/
theorem fdBodyB_eq (ok : Nat → Bool) (c : Nat) (st : FDState) (s : Sink)
    (hidx : st.output_idx ≤ 255) :
    fdBodyB ok c st s = some (fdBody ok c st s) ∧
    (∀ st' s', fdBody ok c st s = .inl (st', s') → st'.output_idx ≤ 255) := by
  rw [fdBodyB, fdBody]
  by_cases hp : 32 ≤ c ∧ c ≤ 126
  · rw [if_pos hp, if_pos hp, if_pos (by
      obtain ⟨hb1, hb2⟩ := shift2_bounds hp.1 hp.2
      exact ⟨hb1, hb2⟩)]
    by_cases h0 : st.character_tracker.getD (c >>> 2) 0 &&& (1 <<< (c &&& 3)) = 0
    · rw [if_pos h0, if_pos h0]
      refine ⟨rfl, ?_⟩
      intro st' s' h
      cases h
      exact hidx
    · rw [if_neg h0, if_neg h0]
      by_cases hd0 : st.character_tracker.getD (c >>> 2) 0
          &&& ((1 <<< (c &&& 3)) <<< 4) = 0
      · rw [if_pos hd0, if_pos hd0]
        dsimp only
        by_cases hflush : st.output_idx + 3 ≥ RESULT_BUFFER_SIZE
        · rw [if_pos hflush, if_pos hflush]
          cases hw : writeSink ok s (st.result.take st.output_idx) with
          | mk s1 flag =>
            cases flag
            · exact ⟨rfl, fun st' s' h => by cases h⟩
            · rw [appendDupB_eq c (by rw [RESULT_BUFFER_SIZE]; dsimp only; omega)]
              refine ⟨rfl, ?_⟩
              intro st' s' h
              cases h
              rw [appendDup_idx]
              dsimp only
              split <;> omega
        · rw [if_neg hflush, if_neg hflush, RESULT_BUFFER_SIZE] at *
          rw [appendDupB_eq c (by rw [RESULT_BUFFER_SIZE]; dsimp only; omega)]
          refine ⟨rfl, ?_⟩
          intro st' s' h
          cases h
          rw [appendDup_idx]
          dsimp only
          split <;> omega
      · rw [if_neg hd0, if_neg hd0]
        refine ⟨rfl, ?_⟩
        intro st' s' h
        cases h
        exact hidx
  · rw [if_neg hp, if_neg hp]
    refine ⟨rfl, ?_⟩
    intro st' s' h
    cases h
    exact hidx

theorem fdLoopB_eq (ok : Nat → Bool) :
    ∀ (l : List Nat) (st : FDState) (s : Sink), st.output_idx ≤ 255 →
      fdLoopB ok l st s = some (fdLoop ok l st s) ∧
      (∀ st' s', fdLoop ok l st s = .inl (st', s') → st'.output_idx ≤ 255)
  | [], st, s, hidx => by
    refine ⟨rfl, ?_⟩
    intro st' s' h
    rw [fdLoop] at h
    cases h
    exact hidx
  | c :: rest, st, s, hidx => by
    rw [fdLoopB]
    simp only [fdLoop]
    by_cases hc0 : c = 0
    · rw [if_pos hc0, if_pos hc0]
      refine ⟨rfl, ?_⟩
      intro st' s' h
      cases h
      exact hidx
    · rw [if_neg hc0, if_neg hc0]
      obtain ⟨hbeq, hbidx⟩ := fdBodyB_eq ok c st s hidx
      rw [hbeq]
      cases hb : fdBody ok c st s with
      | inl p =>
        obtain ⟨st1, s1⟩ := p
        obtain ⟨hleq, hlidx⟩ := fdLoopB_eq ok rest st1 s1 (hbidx st1 s1 hb)
        exact ⟨hleq, hlidx⟩
      | inr s1 =>
        exact ⟨rfl, fun st' s' h => by cases h⟩

theorem fdFinishB_eq (ok : Nat → Bool) (st : FDState) (s : Sink)
    (hidx : st.output_idx ≤ 255) :
    fdFinishB ok (.inl (st, s)) = some (fdFinish ok (.inl (st, s))) := by
  rw [fdFinishB, fdFinish]
  dsimp only
  by_cases hflush : st.output_idx + 2 ≥ RESULT_BUFFER_SIZE
  · rw [if_pos hflush, if_pos hflush]
    cases hw : writeSink ok s (st.result.take st.output_idx) with
    | mk s1 flag =>
      cases flag
      · rfl
      · dsimp only
        rw [pushByteB_eq 125 (by rw [RESULT_BUFFER_SIZE]; dsimp only; omega)]
        simp only [Option.bind_eq_bind, Option.some_bind]
        rw [pushByteB_eq 10 (by simp only [pushByte]; rw [RESULT_BUFFER_SIZE]; omega)]
        simp only [Option.some_bind]
        split <;> rfl
  · rw [if_neg hflush, if_neg hflush, RESULT_BUFFER_SIZE] at *
    dsimp only
    rw [pushByteB_eq 125 (by rw [RESULT_BUFFER_SIZE]; omega)]
    simp only [Option.bind_eq_bind, Option.some_bind]
    rw [pushByteB_eq 10 (by simp only [pushByte]; rw [RESULT_BUFFER_SIZE]; omega)]
    simp only [Option.some_bind]
    split <;> rfl

/-- Claim C9: every array access in `find_duplicates` is in bounds: the
bounds-checked instrumentation (tracker index forced into [8, 31], every
`result` store forced below `RESULT_BUFFER_SIZE`) never fails and computes
exactly the plain model, for every oracle, buffer garbage and input. -/
theorem fd_C9 (ok : Nat → Bool) (junk : List Nat) (input : Option (List Nat)) :
    find_duplicatesB ok junk input = some (find_duplicates ok junk input) := by
  rw [find_duplicatesB, find_duplicates]
  dsimp only
  by_cases he : strEmpty input = true
  · rw [if_pos he, if_pos he]
  · rw [if_neg he, if_neg he,
      pushByteB_eq 123 (by rw [RESULT_BUFFER_SIZE]; dsimp only; omega)]
    obtain ⟨hleq, hlidx⟩ := fdLoopB_eq ok (input.getD [])
      (pushByte ⟨List.replicate 64 0, junk, 0, true⟩ 123) ⟨[], 0⟩ (by simp [pushByte])
    dsimp only
    rw [hleq]
    cases hl : fdLoop ok (input.getD [])
        (pushByte ⟨List.replicate 64 0, junk, 0, true⟩ 123) ⟨[], 0⟩ with
    | inl p =>
      obtain ⟨st', s'⟩ := p
      exact fdFinishB_eq ok st' s' (hlidx st' s' hl)
    | inr s1 => rfl

/-! ### Tracker nibble invariant (C10) -/

theorem nibble_inv_iff (b : Nat) :
    (b >>> 4) &&& (b &&& 15) = b >>> 4 ↔
      ∀ i, (b.testBit (4 + i) && (b.testBit i && decide (i < 4))) = b.testBit (4 + i) := by
  constructor
  · intro h i
    have hc := congrArg (fun x => x.testBit i) h
    simp only [Nat.testBit_and, Nat.testBit_shiftRight] at hc
    rw [show (15 : Nat) = 2 ^ 4 - 1 from rfl, Nat.testBit_two_pow_sub_one] at hc
    exact hc
  · intro h
    apply Nat.eq_of_testBit_eq
    intro i
    simp only [Nat.testBit_and, Nat.testBit_shiftRight]
    rw [show (15 : Nat) = 2 ^ 4 - 1 from rfl, Nat.testBit_two_pow_sub_one]
    exact h i

theorem nibble_inv_or_low {b p : Nat} (hp : p < 4)
    (h : (b >>> 4) &&& (b &&& 15) = b >>> 4) :
    ((b ||| (1 <<< p)) >>> 4) &&& ((b ||| (1 <<< p)) &&& 15)
      = (b ||| (1 <<< p)) >>> 4 := by
  rw [nibble_inv_iff] at h ⊢
  intro i
  rw [testBit_or_one_shift, testBit_or_one_shift,
    decide_eq_false (show ¬ p = 4 + i by omega)]
  simp only [Bool.or_false]
  have hi := h i
  cases hbi : b.testBit (4 + i) <;> cases hb2 : b.testBit i <;>
    cases hd : decide (i < 4) <;> cases hd2 : decide (p = i) <;> simp_all

theorem nibble_inv_or_high {b p : Nat} (hp : p < 4)
    (hseen : b &&& (1 <<< p) ≠ 0)
    (h : (b >>> 4) &&& (b &&& 15) = b >>> 4) :
    ((b ||| ((1 <<< p) <<< 4)) >>> 4) &&& ((b ||| ((1 <<< p) <<< 4)) &&& 15)
      = (b ||| ((1 <<< p) <<< 4)) >>> 4 := by
  rw [one_shift_shift]
  have hsb : b.testBit p = true := by
    have hne := hseen
    rw [Ne, and_one_shift_eq_zero_iff] at hne
    cases hv : b.testBit p
    · exact absurd hv hne
    · rfl
  rw [nibble_inv_iff] at h ⊢
  intro i
  rw [testBit_or_one_shift, testBit_or_one_shift]
  by_cases hi4 : i < 4
  · rw [decide_eq_false (show ¬ p + 4 = i by omega)]
    simp only [Bool.or_false]
    by_cases hpi : p = i
    · subst hpi
      rw [decide_eq_true (show p + 4 = 4 + p by omega)]
      simp [hsb, decide_eq_true hi4]
    · rw [decide_eq_false (show ¬ p + 4 = 4 + i by omega)]
      simp only [Bool.or_false]
      exact h i
  · have hfalse : b.testBit (4 + i) = false := by
      have hi := h i
      rw [decide_eq_false hi4] at hi
      simpa using hi.symm
    rw [decide_eq_false (show ¬ p + 4 = 4 + i by omega), decide_eq_false hi4]
    simp [hfalse]

theorem trackerInv_set {t : List Nat} {i v : Nat}
    (ht : trackerInv t) (hv : (v >>> 4) &&& (v &&& 15) = v >>> 4) :
    trackerInv (t.set i v) := by
  intro b hb
  rcases List.mem_or_eq_of_mem_set hb with h | rfl
  · exact ht b h
  · exact hv

theorem trackerInv_getD {t : List Nat} (ht : trackerInv t) (i : Nat) :
    ((t.getD i 0) >>> 4) &&& ((t.getD i 0) &&& 15) = (t.getD i 0) >>> 4 := by
  rcases Nat.lt_or_ge i t.length with h | h
  · have hg : t.getD i 0 = t[i] := by
      rw [List.getD_eq_getElem?_getD, List.getElem?_eq_getElem h]
      rfl
    rw [hg]
    exact ht _ (List.getElem_mem h)
  · have hg : t.getD i 0 = 0 := by
      rw [List.getD_eq_getElem?_getD, List.getElem?_eq_none (by omega)]
      rfl
    rw [hg]
    rfl

/-- One loop-body step preserves the nibble invariant. -/
theorem fdBody_trackerInv (ok : Nat → Bool) (c : Nat) (st : FDState) (s : Sink)
    (st' : FDState) (s' : Sink) (hinv : trackerInv st.character_tracker)
    (hb : fdBody ok c st s = .inl (st', s')) :
    trackerInv st'.character_tracker := by
  rw [fdBody] at hb
  by_cases hp : 32 ≤ c ∧ c ≤ 126
  · rw [if_pos hp] at hb
    by_cases h0 : st.character_tracker.getD (c >>> 2) 0 &&& (1 <<< (c &&& 3)) = 0
    · rw [if_pos h0] at hb
      cases hb
      exact trackerInv_set hinv (nibble_inv_or_low (and3_lt c) (trackerInv_getD hinv _))
    · rw [if_neg h0] at hb
      by_cases hd0 : st.character_tracker.getD (c >>> 2) 0
          &&& ((1 <<< (c &&& 3)) <<< 4) = 0
      · rw [if_pos hd0] at hb
        dsimp only at hb
        have hset : trackerInv (st.character_tracker.set (c >>> 2)
            (st.character_tracker.getD (c >>> 2) 0 ||| ((1 <<< (c &&& 3)) <<< 4))) :=
          trackerInv_set hinv
            (nibble_inv_or_high (and3_lt c) h0 (trackerInv_getD hinv _))
        by_cases hflush : st.output_idx + 3 ≥ RESULT_BUFFER_SIZE
        · rw [if_pos hflush] at hb
          cases hw : writeSink ok s (st.result.take st.output_idx) with
          | mk s1 flag =>
            rw [hw] at hb
            cases flag
            · dsimp only at hb
              cases hb
            · dsimp only at hb
              cases hb
              rw [appendDup_tracker]
              exact hset
        · rw [if_neg hflush] at hb
          cases hb
          rw [appendDup_tracker]
          exact hset
      · rw [if_neg hd0] at hb
        cases hb
        exact hinv
  · rw [if_neg hp] at hb
    cases hb
    exact hinv

/-- The whole scan loop preserves the nibble invariant (hence it holds at
every loop iteration when started from the all-zero tracker). -/
theorem fdLoop_trackerInv (ok : Nat → Bool) :
    ∀ (l : List Nat) (st : FDState) (s : Sink) (st' : FDState) (s' : Sink),
      trackerInv st.character_tracker →
      fdLoop ok l st s = .inl (st', s') →
      trackerInv st'.character_tracker
  | [], st, s, st', s', hinv, hb => by
    rw [fdLoop] at hb
    cases hb
    exact hinv
  | c :: rest, st, s, st', s', hinv, hb => by
    rw [fdLoop] at hb
    by_cases hc0 : c = 0
    · rw [if_pos hc0] at hb
      cases hb
      exact hinv
    · rw [if_neg hc0] at hb
      cases hbody : fdBody ok c st s with
      | inl p =>
        obtain ⟨st1, s1⟩ := p
        rw [hbody] at hb
        exact fdLoop_trackerInv ok rest st1 s1 st' s'
          (fdBody_trackerInv ok c st s st1 s1 hinv hbody) hb
      | inr s1 =>
        rw [hbody] at hb
        cases hb

/-- Claim C10: the tracking state keeps the invariant that a symbol's
duplicate-emitted bit is set only if its seen bit is set — for every
tracker byte, `(byte >> 4) & (byte & 0x0F) == byte >> 4`.  It holds for the
initial all-zero tracker and is preserved by every single step of the scan
loop (and hence by any number of iterations). -/
theorem fd_C10 :
    trackerInv (List.replicate 64 0) ∧
    (∀ (ok : Nat → Bool) (c : Nat) (st : FDState) (s : Sink) (st' : FDState) (s' : Sink),
      trackerInv st.character_tracker →
      fdBody ok c st s = .inl (st', s') →
      trackerInv st'.character_tracker) ∧
    (∀ (ok : Nat → Bool) (l : List Nat) (st : FDState) (s : Sink)
        (st' : FDState) (s' : Sink),
      trackerInv st.character_tracker →
      fdLoop ok l st s = .inl (st', s') →
      trackerInv st'.character_tracker) := by
  refine ⟨?_, fdBody_trackerInv, fdLoop_trackerInv⟩
  intro b hb
  have hz : b = 0 := List.eq_of_mem_replicate hb
  rw [hz]
  rfl

/-- Witness for C10: one step on the letter `a` from the fresh tracker. -/
theorem fd_C10_witness :
    trackerInv (List.replicate 64 0) ∧
    trackerInv ((List.replicate 64 0).set 24
      ((List.replicate 64 0).getD 24 0 ||| (1 <<< (97 &&& 3)))) :=
  ⟨fd_C10.1,
    fd_C10.2.1 allOk 97 ⟨List.replicate 64 0, junk0, 1, true⟩ ⟨[], 0⟩
      ⟨(List.replicate 64 0).set 24
        ((List.replicate 64 0).getD 24 0 ||| (1 <<< (97 &&& 3))), junk0, 1, true⟩
      ⟨[], 0⟩ (by decide) rfl⟩

